import Mathlib

/-!
# Verification of the nginx-prometheus-exporter custom collector

This development gives a shallow embedding, in Lean, of the configuration-aware
health and freshness collector of the `heungbot/nginx-prometheus-exporter`
repository, and proves (or refutes) the frozen specification claims about it.

Embedded components (each definition's doc comment names the Go source it
models):

* the stub_status template scanner (`client/nginx.go`, `parseStubStats` /
  `GetStubStats`), modelling Go's `fmt.Fscanf` on the fixed template;
* the regex-based configuration scanners (`extractProxyTarget`,
  `findUpstreamServers`, package `collector`), modelling Go's regexp engine
  (leftmost match, greedy/non-greedy backtracking) on the concrete patterns
  used by the source;
* the TCP reachability probe (`tcpTest`), with the network dial abstracted
  as an oracle;
* `GetCustomStats` (`client/nginx.go`) and `NginxCollector.Collect`
  (the revision carrying both custom metric families), with the file system
  and the HTTP response abstracted as oracles;
* a mutual-exclusion step relation for the `sync.Mutex` guarding `Collect`.

Strings are modelled as `List Char`; the sources only ever handle ASCII
configuration text and metric bodies, and all character classes are taken
from the concrete patterns in the source.
-/

namespace NginxProm

/-! ## Character classes

`reSpace` is the Go regexp class `\s` = `[\t\n\f\r ]` (RE2 Perl class).
`fmtSpace` is `fmt`'s `isSpace` restricted to ASCII and coincides there with
`unicode.IsSpace` (used by `strings.TrimSpace`): `\t \n \v \f \r ' '`. -/

def reSpace (c : Char) : Bool :=
  c = '\t' || c = '\n' || c = '\x0c' || c = '\r' || c = ' '

def fmtSpace (c : Char) : Bool :=
  c = '\t' || c = '\n' || c = '\x0b' || c = '\x0c' || c = '\r' || c = ' '

/-- `fmt` whitespace other than newline: the package doc's notion of "space"
("any Unicode whitespace character except newline", restricted to ASCII). -/
def fmtSpaceNoNL (c : Char) : Bool :=
  c = '\t' || c = '\x0b' || c = '\x0c' || c = '\r' || c = ' '

def isDigitCh (c : Char) : Bool := 48 ≤ c.toNat && c.toNat ≤ 57

def isAlphaCh (c : Char) : Bool :=
  (97 ≤ c.toNat && c.toNat ≤ 122) || (65 ≤ c.toNat && c.toNat ≤ 90)

def isAlnumCh (c : Char) : Bool := isAlphaCh c || isDigitCh c

/-! ## The stub_status template scanner

`parseStubStats` (src/client/nginx.go:105-118) runs `fmt.Fscanf` with the
fixed format

`Active connections: %d\nserver accepts handled requests\n%d %d %d\nReading: %d Writing: %d Waiting: %d\n`

scanning seven `int64` operands.  We model `Fscanf`'s documented matching
rules for this format:

* a non-space literal character in the format consumes exactly that input
  character, which must be present;
* a run of one or more spaces in the format, not adjacent to a newline,
  consumes as many spaces (non-newline whitespace) as possible in the input
  and must consume at least one space or find the end of the input;
* a newline in the format consumes zero or more spaces in the input followed
  by a single newline or the end of the input;
* the verb `%d` first discards leading spaces (stopping at a newline, which
  is then `fmt`'s "unexpected newline" error since no digit follows), then
  reads an optional sign and one or more decimal digits, and fails if the
  value does not fit in `int64`;
* input left over after the whole format has matched is not consumed and is
  not an error;
* a carriage return immediately followed by a newline reads as a plain
  newline (modelled by `collapseCRLF`). -/

/-- Go `fmt`'s reader maps CRLF to LF. -/
def collapseCRLF : List Char → List Char
  | [] => []
  | [c] => [c]
  | c :: c2 :: rest =>
    if c = '\r' && c2 = '\n' then '\n' :: collapseCRLF rest
    else c :: collapseCRLF (c2 :: rest)

/-- A literal (no-space) chunk of the format: each character must be present. -/
def expectLit : List Char → List Char → Option (List Char)
  | [], s => some s
  | _ :: _, [] => none
  | l :: ls, c :: cs => if l = c then expectLit ls cs else none

/-- A run of spaces in the format (not adjacent to a newline): consumes the
maximal run of non-newline spaces, which must be nonempty unless the input is
at its end. -/
def expectSpaceRun (s : List Char) : Option (List Char) :=
  match s with
  | [] => some []
  | c :: cs => if fmtSpaceNoNL c then some (cs.dropWhile fmtSpaceNoNL) else none

/-- After skipping spaces, a format newline needs a newline or the end of
the input. -/
def nlCheck : List Char → Option (List Char)
  | [] => some []
  | c :: cs => if c = '\n' then some cs else none

/-- A newline in the format: zero or more spaces, then a newline or the end
of the input. -/
def expectNL (s : List Char) : Option (List Char) :=
  nlCheck (s.dropWhile fmtSpaceNoNL)

/-- Decimal value of a digit run (most significant first). -/
def digitsVal (l : List Char) : Nat :=
  l.foldl (fun v c => v * 10 + (c.toNat - 48)) 0

/-- The optional sign accepted by the `%d` verb. -/
def scanSign (s : List Char) : Bool × List Char :=
  match s with
  | [] => (false, [])
  | c :: rest =>
    if c = '-' then (true, rest)
    else if c = '+' then (false, rest)
    else (false, c :: rest)

/-- The `%d` verb scanning into an `int64`: skip leading spaces (a newline
or missing digit fails), optional sign, one or more decimal digits, overflow
check against the `int64` range. -/
def scanInt (s : List Char) : Option (Int × List Char) :=
  let sg := scanSign (s.dropWhile fmtSpaceNoNL)
  let ds := sg.2.takeWhile isDigitCh
  if ds = [] then none
  else
    let v : Int := if sg.1 then -(digitsVal ds : Int) else (digitsVal ds : Int)
    if -(2 ^ 63) ≤ v ∧ v < 2 ^ 63 then some (v, sg.2.dropWhile isDigitCh)
    else none

/-- NGINX stub_status counters, as in `StubStats` / `StubConnections`
(src/client/nginx.go:27-41). -/
structure StubStats where
  active : Int
  accepted : Int
  handled : Int
  reading : Int
  writing : Int
  waiting : Int
  requests : Int
  deriving DecidableEq, Repr

/-- Format chunk `Active connections: %d\n`: two literal words separated by a
space run, a space run, the first `%d` operand, then the format newline. -/
def scanLine1 (s : List Char) : Option (Int × List Char) :=
  (expectLit "Active".toList s).bind fun s =>
  (expectSpaceRun s).bind fun s =>
  (expectLit "connections:".toList s).bind fun s =>
  (expectSpaceRun s).bind fun s =>
  (scanInt s).bind fun (v, s) =>
  (expectNL s).map fun s => (v, s)

/-- Format chunk `server accepts handled requests\n`: four literal words
separated by space runs, then the format newline. -/
def scanLine2 (s : List Char) : Option (List Char) :=
  (expectLit "server".toList s).bind fun s =>
  (expectSpaceRun s).bind fun s =>
  (expectLit "accepts".toList s).bind fun s =>
  (expectSpaceRun s).bind fun s =>
  (expectLit "handled".toList s).bind fun s =>
  (expectSpaceRun s).bind fun s =>
  (expectLit "requests".toList s).bind fun s =>
  expectNL s

/-- Format chunk `%d %d %d\n`: three `%d` operands separated by space runs,
then the format newline. -/
def scanLine3 (s : List Char) : Option (Int × Int × Int × List Char) :=
  (scanInt s).bind fun (a, s) =>
  (expectSpaceRun s).bind fun s =>
  (scanInt s).bind fun (b, s) =>
  (expectSpaceRun s).bind fun s =>
  (scanInt s).bind fun (c, s) =>
  (expectNL s).map fun s => (a, b, c, s)

/-- Format chunk `Reading: %d Writing: %d Waiting: %d\n`. -/
def scanLine4 (s : List Char) : Option (Int × Int × Int × List Char) :=
  (expectLit "Reading:".toList s).bind fun s =>
  (expectSpaceRun s).bind fun s =>
  (scanInt s).bind fun (a, s) =>
  (expectSpaceRun s).bind fun s =>
  (expectLit "Writing:".toList s).bind fun s =>
  (expectSpaceRun s).bind fun s =>
  (scanInt s).bind fun (b, s) =>
  (expectSpaceRun s).bind fun s =>
  (expectLit "Waiting:".toList s).bind fun s =>
  (expectSpaceRun s).bind fun s =>
  (scanInt s).bind fun (c, s) =>
  (expectNL s).map fun s => (a, b, c, s)

/-- `parseStubStats` (src/client/nginx.go:105-118): `fmt.Fscanf` of the fixed
template over the response body; `none` is the scan error.  The seven
operands are bound in source order: Active, Accepted, Handled, Requests,
Reading, Writing, Waiting; input remaining after the final format newline is
ignored. -/
def parseStubStats (body : List Char) : Option StubStats :=
  (scanLine1 (collapseCRLF body)).bind fun (active, s) =>
  (scanLine2 s).bind fun s =>
  (scanLine3 s).bind fun (accepted, handled, requests, s) =>
  (scanLine4 s).map fun (reading, writing, waiting, _) =>
  ⟨active, accepted, handled, reading, writing, waiting, requests⟩

/-- Outcome of the HTTP round trip in `GetStubStats`
(src/client/nginx.go:73-103), abstracted as an oracle: request creation may
fail, `httpClient.Do` may fail, and on a response we get the status code and
the outcome of `io.ReadAll` on the body. -/
inductive RespOutcome
  | reqErr
  | doErr
  | resp (code : Nat) (bodyRead : Except Unit (List Char))

/-- The distinct error returns of `GetStubStats`. -/
inductive StubErr
  | request
  | transport
  | status (code : Nat)
  | readBody
  | parse
  deriving DecidableEq, Repr

/-- `GetStubStats` (src/client/nginx.go:73-103): error on request creation,
on transport, on a non-200 status, on a body read failure, or on a template
scan failure; otherwise the parsed stats. -/
def getStubStats (oc : RespOutcome) : Except StubErr StubStats :=
  match oc with
  | .reqErr => .error .request
  | .doErr => .error .transport
  | .resp code bodyRead =>
    if code ≠ 200 then .error (.status code)
    else
      match bodyRead with
      | .error _ => .error .readBody
      | .ok body =>
        match parseStubStats body with
        | none => .error .parse
        | some s => .ok s

/-- Whether the status fetch of a cycle failed. -/
def stubFailed (oc : RespOutcome) : Bool :=
  match getStubStats oc with
  | .error _ => true
  | .ok _ => false

/-! ## Decimal rendering (for exercising the template scanner) -/

/-- The ASCII digit for one decimal place. -/
def decDigit : Nat → Char
  | 0 => '0'
  | 1 => '1'
  | 2 => '2'
  | 3 => '3'
  | 4 => '4'
  | 5 => '5'
  | 6 => '6'
  | 7 => '7'
  | 8 => '8'
  | _ => '9'

/-- Decimal digits of a positive number, most significant first (empty for
zero). -/
def decDigits (n : Nat) : List Char :=
  if h : n = 0 then []
  else decDigits (n / 10) ++ [decDigit (n % 10)]
termination_by n
decreasing_by exact Nat.div_lt_self (Nat.pos_of_ne_zero h) (by omega)

/-- Decimal rendering of a natural number. -/
def natToDec (n : Nat) : List Char := if n = 0 then ['0'] else decDigits n

/-- The first stub_status line, `Active connections: <a> `, ending in its
newline. -/
def stubLine1 (a : Nat) (rest : List Char) : List Char :=
  "Active".toList ++ ' ' ::
    ("connections:".toList ++ ' ' :: (natToDec a ++ ' ' :: '\n' :: rest))

/-- The header line `server accepts handled requests`. -/
def stubLine2 (rest : List Char) : List Char :=
  "server".toList ++ ' ' :: ("accepts".toList ++ ' ' ::
    ("handled".toList ++ ' ' :: ("requests".toList ++ '\n' :: rest)))

/-- The counters line ` <b> <c> <d> `. -/
def stubLine3 (b c d : Nat) (rest : List Char) : List Char :=
  ' ' :: (natToDec b ++ ' ' ::
    (natToDec c ++ ' ' :: (natToDec d ++ ' ' :: '\n' :: rest)))

/-- The final line `Reading: <e> Writing: <f> Waiting: <g> `. -/
def stubLine4 (e f g : Nat) (rest : List Char) : List Char :=
  "Reading:".toList ++ ' ' :: (natToDec e ++ ' ' ::
    ("Writing:".toList ++ ' ' :: (natToDec f ++ ' ' ::
      ("Waiting:".toList ++ ' ' :: (natToDec g ++ ' ' :: '\n' :: rest)))))

/-- A stub_status body exactly as NGINX renders it (including the trailing
space on each counter line and the leading space on the accepts line), with
the seven counters in template order: active; accepted, handled, requests;
reading, writing, waiting. -/
def renderStub (a b c d e f g : Nat) : List Char :=
  stubLine1 a (stubLine2 (stubLine3 b c d (stubLine4 e f g [])))

/-! ## The configuration scanners

`extractProxyTarget` (package `collector`) reads one configuration file and
runs three kinds of regexes over the text:

* directive scan: `FindAllStringSubmatch` of the pattern
  `proxy_pass\s+(.*?);` — the Go engine uses leftmost, Perl-style
  backtracking semantics; `.` does not match a newline, `\s` is
  `[\t\n\f\r ]`.  A match at a position needs the literal keyword, at least
  one whitespace character, and then a semicolon occurring before any
  newline; because the capture may be empty and cannot contain a newline,
  the greedy `\s+` always keeps its maximal run in a successful match, so
  the capture never starts with whitespace.  Scanning resumes after the
  consumed semicolon, and after a failed attempt at the next position.
* the anchored classifiers (IPv4 `^\d\x7b1,3\x7d.\d\x7b1,3\x7d.\d\x7b1,3\x7d.\d\x7b1,3\x7d(:\d+)?$`
  with literal dots, and the hostname pattern), modelled by `ipFormat` /
  `domainFormat` through the unique decomposition of the subject at the
  first colon and at the dots: octet and label characters contain neither a
  dot nor a colon, so the decomposition into labels/octets and port is
  unique and backtracking cannot find any other parse of an anchored match.
* the upstream block pattern `upstream\s+NAME\s*\x7b([\s\S]*?)\x7d` (the
  name is `regexp.QuoteMeta`-escaped, hence literal) and the member pattern
  `server\s+([^; ]+);`.  For the member pattern the greedy `\s+` can give
  trailing whitespace characters back to the `[^; ]+` capture one at a time
  (a tab or newline is in `[^; ]`), which `svBacktrack` enumerates in the
  engine's order, maximal whitespace run first. -/

/-- The forwarding-directive keyword scanned for by `extractProxyTarget`. -/
def ppLit : List Char := "proxy_pass".toList

/-- Non-greedy `(.*?);` continuation: the shortest run of non-newline
characters followed by a semicolon; fails if a newline or the end of input
comes first.  Returns (capture, rest after the semicolon). -/
def takeToSemi : List Char → Option (List Char × List Char)
  | [] => none
  | c :: cs =>
    if c = ';' then some ([], cs)
    else if c = '\n' then none
    else (takeToSemi cs).map fun vr => (c :: vr.1, vr.2)

/-- The `\s+` run after a keyword: at least one whitespace character, then
the maximal run (see the section comment for why the maximal run is the one
kept). -/
def spaceRun1 : List Char → Option (List Char)
  | [] => none
  | c :: rest => if reSpace c then some (rest.dropWhile reSpace) else none

/-- One attempt of `proxy_pass\s+(.*?);` anchored at the head of `l`. -/
def ppTryHere (l : List Char) : Option (List Char × List Char) :=
  if ppLit.isPrefixOf l then (spaceRun1 (l.drop 10)).bind takeToSemi
  else none

/-- Directive scan, fuelled (the fuel only serves termination; one unit is
spent per scan position, and every step strictly shortens the text). -/
def scanPPAux : Nat → List Char → List (List Char)
  | 0, _ => []
  | fuel + 1, l =>
    match l with
    | [] => []
    | c :: cs =>
      match ppTryHere (c :: cs) with
      | some vr => vr.1 :: scanPPAux fuel vr.2
      | none => scanPPAux fuel cs

/-- Directive scan: all matches of `proxy_pass\s+(.*?);` over the text, in
leftmost order, resuming after each match (Go `FindAllStringSubmatch`),
returning the captured raw values. -/
def scanPP (l : List Char) : List (List Char) := scanPPAux l.length l

/-- `strings.TrimSpace` (ASCII): drop whitespace from both ends. -/
def trimSpace (l : List Char) : List Char :=
  ((l.dropWhile fmtSpace).reverse.dropWhile fmtSpace).reverse

/-- The second `strings.TrimPrefix` call of `extractProxyTarget`: strip a
leading `https://`. -/
def stripHttps (v1 : List Char) : List Char :=
  if ("https://".toList).isPrefixOf v1 then v1.drop 8 else v1

/-- The two `strings.TrimPrefix` calls of `extractProxyTarget`: first strip a
leading `http://`, then a leading `https://`. -/
def stripScheme (v : List Char) : List Char :=
  stripHttps (if ("http://".toList).isPrefixOf v then v.drop 7 else v)

/-- Split at the first colon: (before, after?) — octets and labels never
contain a colon, so this is the unique position where the optional port
group `(:\d+)?` of an anchored match can start. -/
def splitAtColon : List Char → List Char × Option (List Char)
  | [] => ([], none)
  | c :: cs =>
    if c = ':' then ([], some cs)
    else
      let hp := splitAtColon cs
      (c :: hp.1, hp.2)

/-- Split on every dot (labels and octets never contain a dot). -/
def splitOnDot : List Char → List (List Char)
  | [] => [[]]
  | c :: cs =>
    if c = '.' then [] :: splitOnDot cs
    else
      match splitOnDot cs with
      | [] => [[c]]
      | p :: ps => (c :: p) :: ps

/-- One IPv4 octet of the pattern: one to three decimal digits. -/
def isOctet (l : List Char) : Bool :=
  decide (l ≠ []) && decide (l.length ≤ 3) && l.all isDigitCh

/-- The optional `(:\d+)?` group: absent, or one or more digits. -/
def portOk : Option (List Char) → Bool
  | none => true
  | some p => decide (p ≠ []) && p.all isDigitCh

/-- `ipFormat` of `extractProxyTarget`: the anchored IPv4-with-optional-port
pattern (four octets of one to three digits, optionally a colon and
digits). -/
def ipFormat (s : List Char) : Bool :=
  decide ((splitOnDot (splitAtColon s).1).length = 4) &&
    (splitOnDot (splitAtColon s).1).all isOctet && portOk (splitAtColon s).2

/-- A character allowed inside a hostname label: alphanumeric or dash. -/
def isLabelCh (c : Char) : Bool := isAlnumCh c || c = '-'

/-- One label of the hostname pattern
`[a-zA-Z0-9]([a-zA-Z0-9-]*[a-zA-Z0-9])?`: nonempty, alphanumeric first and
last characters, alphanumerics and dashes in between. -/
def isLabel : List Char → Bool
  | [] => false
  | c :: cs =>
    isAlnumCh c && (c :: cs).all isLabelCh && isAlnumCh ((c :: cs).getLastD 'a')

/-- `domainFormat` of `extractProxyTarget`: the anchored
hostname-with-optional-port pattern (dot-separated labels, optionally a
colon and digits). -/
def domainFormat (s : List Char) : Bool :=
  (splitOnDot (splitAtColon s).1).all isLabel && portOk (splitAtColon s).2

/-- The keyword of the upstream block pattern. -/
def upLit : List Char := "upstream".toList

/-- Non-greedy `([\s\S]*?)\x7d`: everything up to the first closing brace;
fails when none exists. -/
def takeToRBrace : List Char → Option (List Char × List Char)
  | [] => none
  | c :: cs =>
    if c = '\x7d' then some ([], cs)
    else (takeToRBrace cs).map fun vr => (c :: vr.1, vr.2)

/-- The opening brace of the upstream block pattern. -/
def expectLBrace : List Char → Option (List Char)
  | [] => none
  | c :: cs => if c = '\x7b' then some cs else none

/-- The part of the upstream block pattern after `upstream\s+`: the literal
quoted name, greedy `\s*`, the opening brace, then the non-greedy capture up
to the first closing brace. -/
def upAfterName (name m : List Char) : Option (List Char) :=
  if name.isPrefixOf m then
    (expectLBrace ((m.drop name.length).dropWhile reSpace)).bind fun body =>
      (takeToRBrace body).map fun vr => vr.1
  else none

/-- One attempt of `upstream\s+NAME\s*\x7b([\s\S]*?)\x7d` anchored at the
head of `l` (the name comes out of `strings.TrimSpace`, so it never starts
with a whitespace character and the greedy `\s+` keeps its maximal run). -/
def upTryHere (name l : List Char) : Option (List Char) :=
  if upLit.isPrefixOf l then (spaceRun1 (l.drop 8)).bind (upAfterName name)
  else none

/-- `FindStringSubmatch` of the upstream block pattern: the leftmost match,
scanning forward one position at a time; the returned value is the captured
block content. -/
def findUpstreamBlock (name : List Char) : List Char → Option (List Char)
  | [] => none
  | c :: cs =>
    match upTryHere name (c :: cs) with
    | some body => some body
    | none => findUpstreamBlock name cs

/-- The keyword of the member pattern `server\s+([^; ]+);`. -/
def svLit : List Char := "server".toList

/-- A character of the class `[^; ]` (anything but a semicolon or a plain
space; tabs and newlines are in the class). -/
def notSemiSpace (c : Char) : Bool := !(c = ';' || c = ' ')

/-- The semicolon closing a member directive. -/
def expectSemi : List Char → Option (List Char)
  | [] => none
  | c :: cs => if c = ';' then some cs else none

/-- The greedy `([^; ]+);` continuation: the maximal nonempty run of `[^; ]`
characters, which must be followed directly by a semicolon (a shorter
capture would face a non-semicolon character of the class, so no shrinking
of the capture can succeed). -/
def captureAddr (l : List Char) : Option (List Char × List Char) :=
  (expectSemi (l.dropWhile notSemiSpace)).bind fun rest =>
    if l.takeWhile notSemiSpace = [] then none
    else some (l.takeWhile notSemiSpace, rest)

/-- Backtracking of the greedy `\s+` before the member capture: try the
maximal whitespace run first, then give characters back to the capture one
at a time from the right. -/
def svBacktrack : List Char → List Char → Option (List Char × List Char)
  | [], tail => captureAddr tail
  | c :: revRun2, tail =>
    match captureAddr tail with
    | some r => some r
    | none => svBacktrack revRun2 (c :: tail)

/-- The `\s+` of the member pattern: at least one whitespace character,
returning the rest of the run reversed (the backtracking pool) and the text
after the run. -/
def svAfter : List Char → Option (List Char × List Char)
  | [] => none
  | c :: rest =>
    if reSpace c then some ((rest.takeWhile reSpace).reverse, rest.dropWhile reSpace)
    else none

/-- One attempt of `server\s+([^; ]+);` anchored at the head of `l`. -/
def svTryHere (l : List Char) : Option (List Char × List Char) :=
  if svLit.isPrefixOf l then
    (svAfter (l.drop 6)).bind fun p => svBacktrack p.1 p.2
  else none

/-- Member scan, fuelled (the fuel only serves termination). -/
def scanServersAux : Nat → List Char → List (List Char)
  | 0, _ => []
  | fuel + 1, l =>
    match l with
    | [] => []
    | c :: cs =>
      match svTryHere (c :: cs) with
      | some vr => vr.1 :: scanServersAux fuel vr.2
      | none => scanServersAux fuel cs

/-- Member scan: all matches of `server\s+([^; ]+);` over the block content,
in leftmost order (Go `FindAllStringSubmatch`), returning the captured
addresses. -/
def scanServers (l : List Char) : List (List Char) := scanServersAux l.length l

/-- `findUpstreamServers` (package `collector`): the leftmost upstream block
declared with exactly the given name; `none` is the
"upstream block not found" error; on a found block, all member addresses in
block order (possibly none). -/
def findUpstreamServers (content name : List Char) : Option (List (List Char)) :=
  (findUpstreamBlock name content).map scanServers

/-- The classification in the loop body of `extractProxyTarget`: a value
matching the IPv4 or hostname pattern is a target verbatim, anything else
names an upstream group whose members are substituted, a missing group
contributing nothing (its error is ignored). -/
def resolveTarget (content t : List Char) : List (List Char) :=
  if ipFormat t || domainFormat t then [t]
  else
    match findUpstreamServers content t with
    | some servers => servers
    | none => []

/-- The per-match body of `extractProxyTarget`: trim the raw capture, strip
the scheme, classify. -/
def resolveValue (content raw : List Char) : List (List Char) :=
  resolveTarget content (stripScheme (trimSpace raw))

/-- The accumulation loop of `extractProxyTarget` over all directive
matches, in file order. -/
def resolveAll (content : List Char) : List (List Char) → List (List Char)
  | [] => []
  | raw :: rest => resolveValue content raw ++ resolveAll content rest

/-- `extractProxyTarget` on the file content (the pure part after
`os.ReadFile`). -/
def extractTargets (content : List Char) : List (List Char) :=
  resolveAll content (scanPP content)

/-- `extractProxyTarget` (package `collector`): `os.ReadFile` then the
directive scan; the only error return is the read failure, modelled by
`none` from the read oracle. -/
def extractProxyTarget (readF : List Char → Option (List Char))
    (path : List Char) : Option (List (List Char)) :=
  (readF path).map extractTargets

/-- Whether a pattern occurs as a contiguous subsequence of the text. -/
def containsSeq (pat : List Char) : List Char → Bool
  | [] => pat.isEmpty
  | c :: cs => pat.isPrefixOf (c :: cs) || containsSeq pat cs

/-! ## Rendered configuration texts (for exercising the extractor) -/

/-- A character acceptable in a rendered upstream name: no whitespace, no
semicolon, no braces, no slash. -/
def goodNameCh (c : Char) : Bool :=
  !(fmtSpace c || c = ';' || c = '\x7b' || c = '\x7d' || c = '/')

/-- A character acceptable in a rendered member address: no whitespace, no
semicolon, no closing brace. -/
def goodAddrCh (c : Char) : Bool :=
  !(fmtSpace c || c = ';' || c = '\x7d')

/-- A character a value matching `ipFormat` or `domainFormat` can contain:
alphanumeric, dash, dot or colon. -/
def isTargetCh (c : Char) : Bool :=
  isAlnumCh c || c = '-' || c = '.' || c = ':'

/-- A forwarding directive `proxy_pass <scheme><v>;`. -/
def renderDirective (scheme v : List Char) : List Char :=
  ppLit ++ ' ' :: (scheme ++ (v ++ [';']))

/-- One member line of a rendered upstream block. -/
def renderEntry (a : List Char) : List Char :=
  '\n' :: (svLit ++ ' ' :: (a ++ [';']))

/-- The content of a rendered upstream block: its member lines and the final
newline before the closing brace. -/
def renderBody (addrs : List (List Char)) : List Char :=
  (addrs.map renderEntry).flatten ++ ['\n']

/-- A rendered upstream block `upstream <name> \x7b ...members... \x7d`. -/
def renderUpstream (name : List Char) (addrs : List (List Char)) : List Char :=
  upLit ++ ' ' :: (name ++ ' ' :: '\x7b' ::
    (renderBody addrs ++ '\x7d' :: '\n' :: []))

/-- A configuration text with only a forwarding directive referencing a
name, and no upstream block at all. -/
def renderDirectiveOnly (name : List Char) : List Char :=
  ppLit ++ ' ' :: (name ++ [';', '\n'])

/-- A configuration text with one upstream block followed by one forwarding
directive referencing it by bare name. -/
def renderConfig (name : List Char) (addrs : List (List Char)) : List Char :=
  renderUpstream name addrs ++ renderDirectiveOnly name

/-! ## The reachability probe -/

/-- Outcome of `net.DialTimeout`, as an oracle over the dialed address:
an error, a connection, or the theoretical nil-connection-no-error case the
source also branches on. -/
inductive DialOutcome
  | connected
  | connErr
  | nilConn

/-- Observable behaviour of one `tcpTest` call: the returned
`HealthCheckResult` (1 success / 0 failure), the returned error, the
address actually dialed, and whether an obtained connection was closed. -/
structure TcpResult where
  result : Nat
  errOut : Option Unit
  dialed : List Char
  closed : Bool
  deriving DecidableEq

/-- The address reassignment at the top of `tcpTest`
(src/client/helpers.go:44-46): append `:80` when the target contains no
colon. -/
def dialAddr (t : List Char) : List Char :=
  if t.any (fun c => c = ':') then t else t ++ ":80".toList

/-- `tcpTest` (src/client/helpers.go:43-57): append `:80` when the target
has no colon, dial, classify the outcome; every branch returns a nil
error. -/
def tcpTest (dial : List Char → DialOutcome) (t : List Char) : TcpResult :=
  match dial (dialAddr t) with
  | .connErr => ⟨0, none, dialAddr t, false⟩
  | .connected => ⟨1, none, dialAddr t, true⟩
  | .nilConn => ⟨0, none, dialAddr t, false⟩

/-! ## GetCustomStats and Collect -/

/-- Result of one `os.Stat`: the base name (`info.Name()`) and the
modification time as a Unix timestamp. -/
structure StatInfo where
  name : List Char
  mtime : Int
  deriving DecidableEq

/-- The file system as seen by one collection cycle: `os.Stat`,
`os.ReadFile` (both may fail, `none`), and the paths appended by the
`filepath.WalkDir` pass over the sibling `conf.d` directory (walk errors are
swallowed by the callback, so only found regular files remain). -/
structure FsEnv where
  stat : List Char → Option StatInfo
  readF : List Char → Option (List Char)
  walk : List (List Char)

/-- The candidate list `files`: the primary configuration path followed by
everything the walk found. -/
def customFiles (configPath : List Char) (fs : FsEnv) : List (List Char) :=
  configPath :: fs.walk

/-- `CustomStats` (src/client/nginx.go:50-53), with the two maps as
association lists in insertion order. -/
structure CustomStats where
  modifiedTimes : List (List Char × Int)
  upstreamHealths : List (List Char × List (List Char × Nat))

/-- The per-file loop of `GetCustomStats` (src/client/nginx.go:137-156):
a stat failure skips the file; otherwise its modification time is recorded,
targets are extracted with the error discarded (a failed read leaves the
nil slice), and every target is probed with the probe error discarded. -/
def getCustomStatsLoop (fs : FsEnv) (dial : List Char → DialOutcome) :
    List (List Char) → CustomStats
  | [] => ⟨[], []⟩
  | f :: rest =>
    let tailStats := getCustomStatsLoop fs dial rest
    match fs.stat f with
    | none => tailStats
    | some info =>
      let targets := (extractProxyTarget fs.readF f).getD []
      let healths := targets.map fun t => (t, (tcpTest dial t).result)
      ⟨(f, info.mtime) :: tailStats.modifiedTimes,
       (f, healths) :: tailStats.upstreamHealths⟩

/-- `GetCustomStats` (src/client/nginx.go:122-158): build the candidate
list, run the loop, and return the stats with a nil error — no failure of
stat, extraction or probing ever reaches the error return. -/
def getCustomStats (fs : FsEnv) (dial : List Char → DialOutcome)
    (configPath : List Char) : CustomStats × Option Unit :=
  (getCustomStatsLoop fs dial (customFiles configPath fs), none)

/-- One metric sample sent to the channel during `Collect`. -/
inductive Metric
  | up (v : Nat)
  | counter (nm : List Char) (v : Int)
  | configMod (file : List Char) (mtime : Int)
  | health (file target : List Char) (v : Nat)
  deriving DecidableEq

/-- `strings.HasSuffix(info.Name(), ".conf")`. -/
def hasConfSuffix (nm : List Char) : Bool := (".conf".toList).isSuffixOf nm

/-- The seven live-counter samples of `Collect`, in emission order. -/
def counterMetrics (s : StubStats) : List Metric :=
  [.counter "connections_active".toList s.active,
   .counter "connections_accepted".toList s.accepted,
   .counter "connections_handled".toList s.handled,
   .counter "connections_reading".toList s.reading,
   .counter "connections_writing".toList s.writing,
   .counter "connections_waiting".toList s.waiting,
   .counter "http_requests_total".toList s.requests]

/-- The environment of one `Collect` cycle: the status endpoint outcome,
the file system, the dialer and the configured primary path. -/
structure CollectEnv where
  resp : RespOutcome
  fs : FsEnv
  dial : List Char → DialOutcome
  configPath : List Char

/-- The per-candidate body of the custom section of `Collect`
(src/unnamed/part_000:241-275): skip when the stat fails or the base name
does not end in `.conf`; skip when extraction (the file read) fails; probe
every target, emitting one health sample per occurrence; finally emit the
modification-time sample for the file. -/
def fileMetrics (env : CollectEnv) (f : List Char) : List Metric :=
  match env.fs.stat f with
  | none => []
  | some info =>
    if hasConfSuffix info.name then
      match extractProxyTarget env.fs.readF f with
      | none => []
      | some targets =>
        (targets.map fun t => Metric.health f t (tcpTest env.dial t).result)
          ++ [Metric.configMod f info.mtime]
    else []

/-- The candidate loop of the custom section of `Collect`. -/
def perFileMetrics (env : CollectEnv) : List (List Char) → List Metric
  | [] => []
  | f :: rest => fileMetrics env f ++ perFileMetrics env rest

/-- `NginxCollector.Collect` (src/unnamed/part_000:200-276), as the ordered
list of metric samples sent to the channel: on a `GetStubStats` error the
up gauge is set to 0, sent, and the method returns; otherwise the up gauge
is sent as 1 followed by the seven counters and the custom per-file
section. -/
def collect (env : CollectEnv) : List Metric :=
  match getStubStats env.resp with
  | .error _ => [.up 0]
  | .ok s =>
    .up 1 :: (counterMetrics s
      ++ perFileMetrics env (customFiles env.configPath env.fs))

/-! ## The collection lock

`Collect` takes `c.mutex.Lock()` on entry and releases it by `defer` on
return (src/unnamed/part_000:72-74).  We model two concurrent invocations
of `Collect` on the same collector as a step relation: each thread is idle,
or at one of the four internal steps (status fetch, file discovery, target
probes, publishing), or finished; a thread enters the status fetch only by
acquiring the free lock and the lock is released only when its holder
finishes. -/

inductive Tid
  | ta
  | tb
  deriving DecidableEq

inductive Phase
  | idle
  | fetchStatus
  | discoverFiles
  | probeTargets
  | publish
  | finished
  deriving DecidableEq

/-- Phases inside the `Collect` body, i.e. between `mutex.Lock()` and the
deferred `mutex.Unlock()`. -/
def inBody : Phase → Bool
  | .idle => false
  | .finished => false
  | _ => true

/-- Joint state of two threads calling `Collect` and of the mutex. -/
structure LockState where
  pa : Phase
  pb : Phase
  owner : Option Tid
  deriving DecidableEq

/-- Interleaving semantics of the two invocations: `mutex.Lock()` moves an
idle thread to the status fetch when the mutex is free; the body steps run
only in order; the deferred `mutex.Unlock()` frees the mutex when the body
returns after publishing. -/
inductive CStep : LockState → LockState → Prop
  | lockA (s : LockState) (h1 : s.pa = .idle) (h2 : s.owner = none) :
      CStep s ⟨.fetchStatus, s.pb, some .ta⟩
  | fetchA (s : LockState) (h : s.pa = .fetchStatus) :
      CStep s ⟨.discoverFiles, s.pb, s.owner⟩
  | discoverA (s : LockState) (h : s.pa = .discoverFiles) :
      CStep s ⟨.probeTargets, s.pb, s.owner⟩
  | probeA (s : LockState) (h : s.pa = .probeTargets) :
      CStep s ⟨.publish, s.pb, s.owner⟩
  | unlockA (s : LockState) (h : s.pa = .publish) :
      CStep s ⟨.finished, s.pb, none⟩
  | lockB (s : LockState) (h1 : s.pb = .idle) (h2 : s.owner = none) :
      CStep s ⟨s.pa, .fetchStatus, some .tb⟩
  | fetchB (s : LockState) (h : s.pb = .fetchStatus) :
      CStep s ⟨s.pa, .discoverFiles, s.owner⟩
  | discoverB (s : LockState) (h : s.pb = .discoverFiles) :
      CStep s ⟨s.pa, .probeTargets, s.owner⟩
  | probeB (s : LockState) (h : s.pb = .probeTargets) :
      CStep s ⟨s.pa, .publish, s.owner⟩
  | unlockB (s : LockState) (h : s.pb = .publish) :
      CStep s ⟨s.pa, .finished, none⟩

/-- Both invocations start idle with the mutex free. -/
def initLock : LockState := ⟨.idle, .idle, none⟩

/-- States a pair of concurrent `Collect` calls can reach. -/
def ReachableLock (s : LockState) : Prop :=
  Relation.ReflTransGen CStep initLock s

/-- The lock-discipline invariant: a thread inside the `Collect` body owns
the mutex. -/
def LockInv (s : LockState) : Prop :=
  (inBody s.pa = true → s.owner = some .ta) ∧
  (inBody s.pb = true → s.owner = some .tb)

/-! ## Concrete cycle environments (for exercising the collector) -/

/-- The primary configuration path of the concrete environments. -/
def cPath : List Char := "/etc/nginx/nginx.conf".toList

/-- A small configuration content with one direct IPv4 target. -/
def cContent : List Char := "proxy_pass http://10.0.0.5:9000;\n".toList

/-- A file system with the primary file present, named `nginx.conf`, and an
empty override directory. -/
def fsConf : FsEnv where
  stat := fun p => if p = cPath then some ⟨"nginx.conf".toList, 1700000000⟩ else none
  readF := fun p => if p = cPath then some cContent else none
  walk := []

/-- A file system whose primary file stats fine but carries a base name not
ending in `.conf`. -/
def fsTxt : FsEnv where
  stat := fun p => if p = cPath then some ⟨"nginx.txt".toList, 1700000000⟩ else none
  readF := fun p => if p = cPath then some cContent else none
  walk := []

/-- A well-formed stub_status body. -/
def okBody : List Char :=
  "Active connections: 1\nserver accepts handled requests\n2 3 4\nReading: 5 Writing: 6 Waiting: 7\n".toList

/-- A cycle whose status fetch fails in transport, over a healthy file
system. -/
def envDown : CollectEnv where
  resp := .doErr
  fs := fsConf
  dial := fun _ => .connErr
  configPath := cPath

/-- A cycle with a good status response whose primary file lacks the
`.conf` suffix. -/
def envTxt : CollectEnv where
  resp := .resp 200 (.ok okBody)
  fs := fsTxt
  dial := fun _ => .connErr
  configPath := cPath

/-- A cycle with a good status response over the healthy file system. -/
def envOk : CollectEnv where
  resp := .resp 200 (.ok okBody)
  fs := fsConf
  dial := fun _ => .connErr
  configPath := cPath

/-! ## Theorems: the reachability probe -/

/-- C7: for every dial oracle and target string, the reachability probe
returns a nil error; a dial error (refused, timeout, DNS failure) and the
nil-connection case are classified as the failure result 0, and a successful
connection is closed and classified as the success result 1 — no outcome
propagates an error to the caller. -/
theorem tcpTest_never_errors (dial : List Char → DialOutcome) (t : List Char) :
    (tcpTest dial t).errOut = none ∧
    (dial (dialAddr t) = .connErr → (tcpTest dial t).result = 0) ∧
    (dial (dialAddr t) = .connected →
      (tcpTest dial t).result = 1 ∧ (tcpTest dial t).closed = true) ∧
    (dial (dialAddr t) = .nilConn → (tcpTest dial t).result = 0) := by
  unfold tcpTest
  cases h : dial (dialAddr t) <;> simp

/-- Witness for C7 at a concrete target and the three concrete dial
outcomes. -/
theorem tcpTest_never_errors_witness :
    (tcpTest (fun _ => .connErr) "10.0.0.5:9000".toList).errOut = none ∧
    (tcpTest (fun _ => .connErr) "10.0.0.5:9000".toList).result = 0 ∧
    (tcpTest (fun _ => .connected) "10.0.0.5:9000".toList).result = 1 ∧
    (tcpTest (fun _ => .connected) "10.0.0.5:9000".toList).closed = true ∧
    (tcpTest (fun _ => .nilConn) "10.0.0.5:9000".toList).result = 0 := by
  refine ⟨(tcpTest_never_errors (fun _ => .connErr) _).1,
    (tcpTest_never_errors (fun _ => .connErr) _).2.1 rfl,
    ((tcpTest_never_errors (fun _ => .connected) _).2.2.1 rfl).1,
    ((tcpTest_never_errors (fun _ => .connected) _).2.2.1 rfl).2,
    (tcpTest_never_errors (fun _ => .nilConn) _).2.2.2 rfl⟩

/-- C8: the probe dials the target string itself when it contains a colon,
and the target with `:80` appended when it contains none. -/
theorem tcpTest_dialed_address (dial : List Char → DialOutcome) (t : List Char) :
    (t.any (fun c => c = ':') = false →
      (tcpTest dial t).dialed = t ++ ":80".toList) ∧
    (t.any (fun c => c = ':') = true → (tcpTest dial t).dialed = t) := by
  constructor
  · intro h
    unfold tcpTest
    cases dial (dialAddr t) <;> simp [dialAddr, h]
  · intro h
    unfold tcpTest
    cases dial (dialAddr t) <;> simp [dialAddr, h]

/-- Witness for C8: a host with no colon gets `:80` appended, a host:port
target is dialed unchanged. -/
theorem tcpTest_dialed_address_witness :
    (tcpTest (fun _ => .connErr) "example.com".toList).dialed
      = "example.com:80".toList ∧
    (tcpTest (fun _ => .connErr) "10.0.0.5:9000".toList).dialed
      = "10.0.0.5:9000".toList := by
  refine ⟨?_, (tcpTest_dialed_address (fun _ => .connErr) _).2 (by decide)⟩
  have h := (tcpTest_dialed_address (fun _ => .connErr) "example.com".toList).1
    (by decide)
  rw [h]
  decide

/-! ## Theorems: GetCustomStats -/

theorem getCustomStatsLoop_modifiedTimes (fs : FsEnv)
    (dial : List Char → DialOutcome) (files : List (List Char)) :
    (getCustomStatsLoop fs dial files).modifiedTimes
      = files.filterMap (fun f => (fs.stat f).map fun i => (f, i.mtime)) := by
  induction files with
  | nil => rfl
  | cons f rest ih =>
    unfold getCustomStatsLoop
    cases h : fs.stat f <;> simp [h, ih]

theorem getCustomStatsLoop_upstreamHealths (fs : FsEnv)
    (dial : List Char → DialOutcome) (files : List (List Char)) :
    (getCustomStatsLoop fs dial files).upstreamHealths
      = files.filterMap (fun f => (fs.stat f).map fun _ =>
          (f, ((extractProxyTarget fs.readF f).getD []).map
            fun t => (t, (tcpTest dial t).result))) := by
  induction files with
  | nil => rfl
  | cons f rest ih =>
    unfold getCustomStatsLoop
    cases h : fs.stat f <;> simp [h, ih]

/-- C10: for every file system, dialer and configuration path — including
paths that do not exist — `GetCustomStats` returns a nil error; the stat
failures are absorbed by omitting the file from both maps, and extraction
and probe failures are absorbed into the per-file entries, so a caller
branching on the error can never take the error branch. -/
theorem getCustomStats_never_errors (fs : FsEnv)
    (dial : List Char → DialOutcome) (configPath : List Char) :
    (getCustomStats fs dial configPath).2 = none ∧
    (getCustomStats fs dial configPath).1.modifiedTimes
      = (customFiles configPath fs).filterMap
          (fun f => (fs.stat f).map fun i => (f, i.mtime)) ∧
    (getCustomStats fs dial configPath).1.upstreamHealths
      = (customFiles configPath fs).filterMap
          (fun f => (fs.stat f).map fun _ =>
            (f, ((extractProxyTarget fs.readF f).getD []).map
              fun t => (t, (tcpTest dial t).result))) :=
  ⟨rfl, getCustomStatsLoop_modifiedTimes fs dial _,
    getCustomStatsLoop_upstreamHealths fs dial _⟩

/-! ## Theorems: the collection lock -/

theorem lockInv_init : LockInv initLock := by
  constructor <;> intro h <;> simp [initLock, inBody] at h

theorem lockInv_step {s t : LockState} (hs : LockInv s) (st : CStep s t) :
    LockInv t := by
  obtain ⟨ha, hb⟩ := hs
  cases st with
  | lockA h1 h2 =>
    refine ⟨fun _ => rfl, fun h => ?_⟩
    exact absurd (hb h) (by simp [h2])
  | fetchA h => exact ⟨fun _ => ha (by simp [inBody, h]), hb⟩
  | discoverA h => exact ⟨fun _ => ha (by simp [inBody, h]), hb⟩
  | probeA h => exact ⟨fun _ => ha (by simp [inBody, h]), hb⟩
  | unlockA h =>
    refine ⟨fun hc => by simp [inBody] at hc, fun hc => ?_⟩
    have h1 := ha (by simp [inBody, h])
    have h2 := hb hc
    simp_all
  | lockB h1 h2 =>
    refine ⟨fun h => ?_, fun _ => rfl⟩
    exact absurd (ha h) (by simp [h2])
  | fetchB h => exact ⟨ha, fun _ => hb (by simp [inBody, h])⟩
  | discoverB h => exact ⟨ha, fun _ => hb (by simp [inBody, h])⟩
  | probeB h => exact ⟨ha, fun _ => hb (by simp [inBody, h])⟩
  | unlockB h =>
    refine ⟨fun hc => ?_, fun hc => by simp [inBody] at hc⟩
    have h1 := hb (by simp [inBody, h])
    have h2 := ha hc
    simp_all

theorem lockInv_reachable {s : LockState} (h : ReachableLock s) : LockInv s := by
  induction h with
  | refl => exact lockInv_init
  | tail _ hstep ih => exact lockInv_step ih hstep

/-- C9: two concurrent `Collect` invocations never interleave their internal
steps — in every reachable state of the two-thread lock model, at most one
thread is inside the body (between acquiring the per-collector mutex at
entry and the deferred release on return), so the second invocation can only
begin its status fetch after the first has finished publishing and released
the lock. -/
theorem collect_mutual_exclusion (s : LockState) (h : ReachableLock s) :
    ¬(inBody s.pa = true ∧ inBody s.pb = true) := by
  rintro ⟨hpa, hpb⟩
  obtain ⟨ia, ib⟩ := lockInv_reachable h
  have h1 := ia hpa
  have h2 := ib hpb
  rw [h1] at h2
  simp at h2

/-- Witness for C9: a state with thread A mid-cycle is reachable, and the
theorem applies to it. -/
theorem collect_mutual_exclusion_witness :
    ReachableLock ⟨.discoverFiles, .idle, some .ta⟩ ∧
    ¬(inBody (LockState.mk .discoverFiles .idle (some .ta)).pa = true ∧
      inBody (LockState.mk .discoverFiles .idle (some .ta)).pb = true) := by
  have hr : ReachableLock ⟨.discoverFiles, .idle, some .ta⟩ := by
    have s1 : CStep initLock ⟨.fetchStatus, .idle, some .ta⟩ :=
      CStep.lockA initLock rfl rfl
    have s2 : CStep ⟨.fetchStatus, .idle, some .ta⟩
        ⟨.discoverFiles, .idle, some .ta⟩ :=
      CStep.fetchA ⟨.fetchStatus, .idle, some .ta⟩ rfl
    exact Relation.ReflTransGen.head s1 (Relation.ReflTransGen.single s2)
  exact ⟨hr, collect_mutual_exclusion _ hr⟩

/-! ## Theorems: the Collect cycle -/

theorem mem_fileMetrics_shape {env : CollectEnv} {f : List Char} {m : Metric}
    (h : m ∈ fileMetrics env f) :
    (∃ t v, m = .health f t v) ∨ (∃ mt, m = .configMod f mt) := by
  unfold fileMetrics at h
  split at h
  next => simp at h
  next info hs =>
    split at h
    next hc =>
      split at h
      next => simp at h
      next ts he =>
        rcases List.mem_append.mp h with h1 | h1
        · obtain ⟨t, -, rfl⟩ := List.mem_map.mp h1
          exact Or.inl ⟨t, _, rfl⟩
        · simp at h1
          exact Or.inr ⟨info.mtime, h1⟩
    next hc => simp at h

theorem mem_perFileMetrics_shape {env : CollectEnv} {files : List (List Char)}
    {m : Metric} (h : m ∈ perFileMetrics env files) :
    (∃ f t v, m = .health f t v) ∨ (∃ f mt, m = .configMod f mt) := by
  induction files with
  | nil => simp [perFileMetrics] at h
  | cons f rest ih =>
    unfold perFileMetrics at h
    rcases List.mem_append.mp h with h1 | h1
    · rcases mem_fileMetrics_shape h1 with ⟨t, v, rfl⟩ | ⟨mt, rfl⟩
      · exact Or.inl ⟨f, t, v, rfl⟩
      · exact Or.inr ⟨f, mt, rfl⟩
    · exact ih h1

/-- C1 corrected: the up gauge reads 0 exactly when `GetStubStats` failed,
but on such a failure `Collect` emits only that one sample and returns —
the file-freshness and health-probe metrics of the cycle are skipped, not
emitted; when the status fetch succeeds the up gauge reads 1. -/
theorem collect_up_and_early_return (env : CollectEnv) :
    (Metric.up 0 ∈ collect env ↔ stubFailed env.resp = true) ∧
    (stubFailed env.resp = true → collect env = [Metric.up 0]) ∧
    (stubFailed env.resp = false → Metric.up 1 ∈ collect env) := by
  unfold stubFailed collect
  cases h : getStubStats env.resp with
  | error e => simp
  | ok s =>
    refine ⟨⟨fun hm => ?_, fun hm => by simp at hm⟩,
      fun hm => by simp at hm, fun _ => List.mem_cons_self _ _⟩
    exfalso
    rcases List.mem_cons.mp hm with h01 | hm2
    · exact absurd h01 (by simp)
    · rcases List.mem_append.mp hm2 with h1 | h1
      · simp [counterMetrics] at h1
      · rcases mem_perFileMetrics_shape h1 with ⟨_, _, _, hh⟩ | ⟨_, _, hh⟩ <;>
          simp at hh

/-- Witness for C1: a cycle whose transport fails, over a file system that
does hold a readable `.conf` file with one extractable target, emits only
the up sample. -/
theorem collect_up_and_early_return_witness :
    stubFailed envDown.resp = true ∧
    envDown.fs.stat cPath = some ⟨"nginx.conf".toList, 1700000000⟩ ∧
    collect envDown = [Metric.up 0] := by
  refine ⟨rfl, rfl, (collect_up_and_early_return envDown).2.1 rfl⟩

/-- C1 counterexample: in this concrete failing cycle the primary file
stats fine, is readable and contains a forwarding directive with one
target, yet the collector emits only the up sample — no file-freshness and
no health-probe metric is emitted in that same cycle, contradicting the
claimed partial degradation. -/
theorem collect_status_failure_skips_custom_counterexample :
    stubFailed envDown.resp = true ∧
    envDown.fs.stat cPath = some ⟨"nginx.conf".toList, 1700000000⟩ ∧
    extractProxyTarget envDown.fs.readF cPath = some ["10.0.0.5:9000".toList] ∧
    collect envDown = [Metric.up 0] := by
  refine ⟨rfl, rfl, by decide, rfl⟩

theorem configMod_mem_fileMetrics {env : CollectEnv} {f g : List Char} {mt : Int} :
    Metric.configMod g mt ∈ fileMetrics env f ↔
      g = f ∧ ∃ info, env.fs.stat f = some info ∧
        hasConfSuffix info.name = true ∧ mt = info.mtime ∧
        ∃ ts, extractProxyTarget env.fs.readF f = some ts := by
  unfold fileMetrics
  split
  next hs => simp [hs]
  next info hs =>
    split
    next hc =>
      split
      next he => simp [hs, he, hc]
      next ts he =>
        constructor
        · intro hm
          rcases List.mem_append.mp hm with h1 | h1
          · simp at h1
          · simp at h1
            exact ⟨h1.1, info, hs, hc, h1.2, ts, he⟩
        · rintro ⟨rfl, info2, hinfo2, -, rfl, -⟩
          rw [hs] at hinfo2
          cases hinfo2
          exact List.mem_append.mpr (Or.inr (by simp))
    next hc =>
      simp only [List.not_mem_nil, false_iff]
      rintro ⟨rfl, info2, hinfo2, hc2, -⟩
      rw [hs] at hinfo2
      cases hinfo2
      exact absurd hc2 hc

theorem configMod_mem_perFileMetrics {env : CollectEnv}
    {files : List (List Char)} {g : List Char} {mt : Int} :
    Metric.configMod g mt ∈ perFileMetrics env files ↔
      g ∈ files ∧ ∃ info, env.fs.stat g = some info ∧
        hasConfSuffix info.name = true ∧ mt = info.mtime ∧
        ∃ ts, extractProxyTarget env.fs.readF g = some ts := by
  induction files with
  | nil => simp [perFileMetrics]
  | cons f rest ih =>
    unfold perFileMetrics
    constructor
    · intro hm
      rcases List.mem_append.mp hm with h1 | h1
      · obtain ⟨rfl, hrest⟩ := configMod_mem_fileMetrics.mp h1
        exact ⟨List.mem_cons_self _ _, hrest⟩
      · obtain ⟨hmem, hrest⟩ := ih.mp h1
        exact ⟨List.mem_cons_of_mem _ hmem, hrest⟩
    · rintro ⟨hmem, hrest⟩
      rcases List.mem_cons.mp hmem with rfl | hmem2
      · exact List.mem_append.mpr
          (Or.inl (configMod_mem_fileMetrics.mpr ⟨rfl, hrest⟩))
      · exact List.mem_append.mpr (Or.inr (ih.mpr ⟨hmem2, hrest⟩))

/-- C3 corrected: in a cycle whose status fetch succeeded, a candidate file
contributes a modification-time sample (keyed by its path, valued at its
stat mtime) if and only if it can be statted AND its base name ends in
`.conf` AND its content can be read; a candidate failing any of these is
dropped without affecting any other candidate (the characterization is
per-candidate), so no single dropped candidate fails the discovery. -/
theorem collect_configMod_characterization (env : CollectEnv)
    (hok : stubFailed env.resp = false) (g : List Char) (mt : Int) :
    Metric.configMod g mt ∈ collect env ↔
      g ∈ customFiles env.configPath env.fs ∧
      ∃ info, env.fs.stat g = some info ∧ hasConfSuffix info.name = true ∧
        mt = info.mtime ∧ ∃ ts, extractProxyTarget env.fs.readF g = some ts := by
  unfold stubFailed at hok
  unfold collect
  cases h : getStubStats env.resp with
  | error e => rw [h] at hok; simp at hok
  | ok s =>
    rw [← @configMod_mem_perFileMetrics env (customFiles env.configPath env.fs) g mt]
    simp only [List.mem_cons, reduceCtorEq, false_or, List.mem_append]
    constructor
    · rintro (h1 | h1)
      · simp [counterMetrics] at h1
      · exact h1
    · exact Or.inr

/-- Witness for C3: over the healthy environment the primary `.conf` file
does contribute its modification-time sample. -/
theorem collect_configMod_characterization_witness :
    stubFailed envOk.resp = false ∧
    Metric.configMod cPath 1700000000 ∈ collect envOk := by
  refine ⟨rfl, (collect_configMod_characterization envOk rfl cPath 1700000000).mpr
    ⟨by simp [customFiles, fsConf, envOk], ⟨"nginx.conf".toList, 1700000000⟩, rfl,
      by decide, rfl, ["10.0.0.5:9000".toList], by decide⟩⟩

/-- C3 counterexample: this candidate stats fine (and is even readable),
but its base name is `nginx.txt`, so the cycle emits no modification-time
sample at all — the stattable candidate is dropped, contradicting the claim
that only unstattable candidates are dropped. -/
theorem collect_conf_suffix_counterexample :
    envTxt.fs.stat cPath = some ⟨"nginx.txt".toList, 1700000000⟩ ∧
    envTxt.fs.readF cPath = some cContent ∧
    collect envTxt = [Metric.up 1,
      Metric.counter "connections_active".toList 1,
      Metric.counter "connections_accepted".toList 2,
      Metric.counter "connections_handled".toList 3,
      Metric.counter "connections_reading".toList 5,
      Metric.counter "connections_writing".toList 6,
      Metric.counter "connections_waiting".toList 7,
      Metric.counter "http_requests_total".toList 4] := by
  exact ⟨rfl, rfl, by decide⟩

/-! ## Theorems: the stub_status template scanner -/

theorem isDigitCh_decDigit {d : Nat} (h : d < 10) : isDigitCh (decDigit d) = true := by
  interval_cases d <;> decide

theorem decDigit_toNat {d : Nat} (h : d < 10) : (decDigit d).toNat = 48 + d := by
  interval_cases d <;> decide

theorem digit_ne_minus {d : Char} (hd : isDigitCh d = true) : ¬(d = '-') := by
  intro h
  exact absurd hd (by subst h; decide)

theorem digit_ne_plus {d : Char} (hd : isDigitCh d = true) : ¬(d = '+') := by
  intro h
  exact absurd hd (by subst h; decide)

theorem digit_ne_cr {d : Char} (hd : isDigitCh d = true) : ¬(d = '\r') := by
  intro h
  exact absurd hd (by subst h; decide)

theorem digit_not_fmtSpaceNoNL {d : Char} (hd : isDigitCh d = true) :
    fmtSpaceNoNL d = false := by
  unfold fmtSpaceNoNL
  have h1 : ¬(d = '\t') := fun h => absurd hd (by subst h; decide)
  have h2 : ¬(d = '\x0b') := fun h => absurd hd (by subst h; decide)
  have h3 : ¬(d = '\x0c') := fun h => absurd hd (by subst h; decide)
  have h4 : ¬(d = '\r') := fun h => absurd hd (by subst h; decide)
  have h5 : ¬(d = ' ') := fun h => absurd hd (by subst h; decide)
  simp [h1, h2, h3, h4, h5]

theorem decDigits_all_digits (n : Nat) : ∀ c ∈ decDigits n, isDigitCh c = true := by
  induction n using Nat.strong_induction_on with
  | _ n ih =>
    intro c hc
    rw [decDigits] at hc
    by_cases h : n = 0
    · simp [h] at hc
    · rw [dif_neg h] at hc
      rcases List.mem_append.mp hc with h1 | h1
      · exact ih (n / 10) (Nat.div_lt_self (Nat.pos_of_ne_zero h) (by omega)) c h1
      · simp only [List.mem_singleton] at h1
        subst h1
        exact isDigitCh_decDigit (Nat.mod_lt _ (by omega))

theorem natToDec_all_digits (n : Nat) : ∀ c ∈ natToDec n, isDigitCh c = true := by
  unfold natToDec
  by_cases h : n = 0
  · simp only [h, if_true]
    intro c hc
    simp at hc
    subst hc
    decide
  · rw [if_neg h]
    exact decDigits_all_digits n

theorem decDigits_ne_nil {n : Nat} (h : n ≠ 0) : decDigits n ≠ [] := by
  rw [decDigits, dif_neg h]
  simp

theorem natToDec_ne_nil (n : Nat) : natToDec n ≠ [] := by
  unfold natToDec
  by_cases h : n = 0
  · simp [h]
  · rw [if_neg h]
    exact decDigits_ne_nil h

theorem digitsVal_append_digit (xs : List Char) (c : Char) :
    digitsVal (xs ++ [c]) = digitsVal xs * 10 + (c.toNat - 48) := by
  unfold digitsVal
  rw [List.foldl_append]
  rfl

theorem digitsVal_decDigits (n : Nat) : digitsVal (decDigits n) = n := by
  induction n using Nat.strong_induction_on with
  | _ n ih =>
    by_cases h : n = 0
    · subst h
      rw [decDigits]
      rfl
    · rw [decDigits, dif_neg h, digitsVal_append_digit,
        ih (n / 10) (Nat.div_lt_self (Nat.pos_of_ne_zero h) (by omega)),
        decDigit_toNat (Nat.mod_lt _ (by omega))]
      omega

theorem digitsVal_natToDec (n : Nat) : digitsVal (natToDec n) = n := by
  unfold natToDec
  by_cases h : n = 0
  · subst h; decide
  · rw [if_neg h]
    exact digitsVal_decDigits n

theorem natToDec_no_cr (n : Nat) :
    (natToDec n).all (fun c => !(c = '\r')) = true := by
  rw [List.all_eq_true]
  intro c hc
  have hd := natToDec_all_digits n c hc
  simpa using digit_ne_cr hd

theorem collapseCRLF_eq_self {l : List Char}
    (h : l.all (fun c => !(c = '\r')) = true) : collapseCRLF l = l := by
  induction l with
  | nil => rfl
  | cons c cs ih =>
    cases cs with
    | nil => rfl
    | cons c2 rest =>
      simp only [List.all_cons, Bool.and_eq_true] at h
      have hc : ¬(c = '\r') := by simpa using h.1
      rw [collapseCRLF, if_neg (by simp [hc])]
      have := ih (by simp only [List.all_cons, Bool.and_eq_true]; exact h.2)
      rw [this]

theorem expectLit_append (lit rest : List Char) :
    expectLit lit (lit ++ rest) = some rest := by
  induction lit with
  | nil => rfl
  | cons c cs ih => simp [expectLit, ih]

theorem dropWhile_append_eq_self {p : Char → Bool} {w : List Char}
    (X : List Char) (hw : w ≠ []) (hh : ∀ c ∈ w.take 1, p c = false) :
    (w ++ X).dropWhile p = w ++ X := by
  cases w with
  | nil => exact absurd rfl hw
  | cons c w2 =>
    rw [List.cons_append, List.dropWhile_cons_of_neg (by simp [hh c (by simp)])]

theorem expectSpaceRun_cons_space (Y : List Char) :
    expectSpaceRun (' ' :: Y) = some (Y.dropWhile fmtSpaceNoNL) := by
  simp [expectSpaceRun, fmtSpaceNoNL]

theorem expectNL_space_nl (rest : List Char) :
    expectNL (' ' :: '\n' :: rest) = some rest := by
  simp [expectNL, nlCheck, fmtSpaceNoNL]

theorem expectNL_nl (rest : List Char) : expectNL ('\n' :: rest) = some rest := by
  simp [expectNL, nlCheck, fmtSpaceNoNL]

theorem scanSign_digit {d : Char} (hd : isDigitCh d = true) (X : List Char) :
    scanSign (d :: X) = (false, d :: X) := by
  simp only [scanSign]
  rw [if_neg (digit_ne_minus hd), if_neg (digit_ne_plus hd)]

theorem scanInt_cons_space {c : Char} (hc : fmtSpaceNoNL c = true) (X : List Char) :
    scanInt (c :: X) = scanInt X := by
  simp [scanInt, List.dropWhile_cons_of_pos hc]

theorem scanInt_digits {n : Nat} (hn : n < 2 ^ 63) {y : Char} {ys : List Char}
    (hy : isDigitCh y = false) :
    scanInt (natToDec n ++ y :: ys) = some ((n : Int), y :: ys) := by
  have hnd := natToDec_ne_nil n
  have hdig := natToDec_all_digits n
  obtain ⟨d, t, hdt⟩ := List.exists_cons_of_ne_nil hnd
  have hd : isDigitCh d = true := hdig d (by rw [hdt]; exact List.mem_cons_self _ _)
  have hdrop : (natToDec n ++ y :: ys).dropWhile fmtSpaceNoNL
      = natToDec n ++ y :: ys := by
    rw [hdt, List.cons_append,
      List.dropWhile_cons_of_neg (by simp [digit_not_fmtSpaceNoNL hd]),
      ← List.cons_append, ← hdt]
  have hsign : scanSign (natToDec n ++ y :: ys) = (false, natToDec n ++ y :: ys) := by
    rw [hdt, List.cons_append, scanSign_digit hd, ← List.cons_append, ← hdt]
  have htake : (natToDec n ++ y :: ys).takeWhile isDigitCh = natToDec n := by
    rw [List.takeWhile_append_of_pos (fun a ha => hdig a ha),
      List.takeWhile_cons_of_neg (by simp [hy])]
    simp
  have hdropD : (natToDec n ++ y :: ys).dropWhile isDigitCh = y :: ys := by
    rw [List.dropWhile_append_of_pos (fun a ha => hdig a ha),
      List.dropWhile_cons_of_neg (by simp [hy])]
  simp only [scanInt, hdrop, hsign, htake, hdropD]
  rw [if_neg (by simpa using hnd)]
  simp only [Bool.false_eq_true, if_false, digitsVal_natToDec]
  rw [if_pos (by constructor <;> omega)]

theorem scanLine1_eval (a : Nat) (ha : a < 2 ^ 63) (rest : List Char) :
    scanLine1 (stubLine1 a rest) = some ((a : Int), rest) := by
  unfold scanLine1 stubLine1
  rw [expectLit_append]
  simp only [Option.some_bind]
  rw [expectSpaceRun_cons_space]
  simp only [Option.some_bind]
  rw [dropWhile_append_eq_self _ (by decide) (by decide)]
  rw [expectLit_append]
  simp only [Option.some_bind]
  rw [expectSpaceRun_cons_space]
  simp only [Option.some_bind]
  rw [dropWhile_append_eq_self _ (natToDec_ne_nil a)
    (fun c hcm => digit_not_fmtSpaceNoNL
      (natToDec_all_digits a c (List.take_subset _ _ hcm)))]
  rw [scanInt_digits ha (by decide)]
  simp only [Option.some_bind]
  rw [expectNL_space_nl]
  rfl

theorem scanLine2_eval (rest : List Char) :
    scanLine2 (stubLine2 rest) = some rest := by
  unfold scanLine2 stubLine2
  rw [expectLit_append]
  simp only [Option.some_bind]
  rw [expectSpaceRun_cons_space]
  simp only [Option.some_bind]
  rw [dropWhile_append_eq_self _ (by decide) (by decide)]
  rw [expectLit_append]
  simp only [Option.some_bind]
  rw [expectSpaceRun_cons_space]
  simp only [Option.some_bind]
  rw [dropWhile_append_eq_self _ (by decide) (by decide)]
  rw [expectLit_append]
  simp only [Option.some_bind]
  rw [expectSpaceRun_cons_space]
  simp only [Option.some_bind]
  rw [dropWhile_append_eq_self _ (by decide) (by decide)]
  rw [expectLit_append]
  simp only [Option.some_bind]
  exact expectNL_nl rest

theorem scanLine3_eval (b c d : Nat) (hb : b < 2 ^ 63) (hc : c < 2 ^ 63)
    (hd : d < 2 ^ 63) (rest : List Char) :
    scanLine3 (stubLine3 b c d rest)
      = some ((b : Int), (c : Int), (d : Int), rest) := by
  unfold scanLine3 stubLine3
  rw [scanInt_cons_space (by decide), scanInt_digits hb (by decide)]
  simp only [Option.some_bind]
  rw [expectSpaceRun_cons_space]
  simp only [Option.some_bind]
  rw [dropWhile_append_eq_self _ (natToDec_ne_nil c)
    (fun x hxm => digit_not_fmtSpaceNoNL
      (natToDec_all_digits c x (List.take_subset _ _ hxm)))]
  rw [scanInt_digits hc (by decide)]
  simp only [Option.some_bind]
  rw [expectSpaceRun_cons_space]
  simp only [Option.some_bind]
  rw [dropWhile_append_eq_self _ (natToDec_ne_nil d)
    (fun x hxm => digit_not_fmtSpaceNoNL
      (natToDec_all_digits d x (List.take_subset _ _ hxm)))]
  rw [scanInt_digits hd (by decide)]
  simp only [Option.some_bind]
  rw [expectNL_space_nl]
  rfl

theorem scanLine4_eval (e f g : Nat) (he : e < 2 ^ 63) (hf : f < 2 ^ 63)
    (hg : g < 2 ^ 63) (rest : List Char) :
    scanLine4 (stubLine4 e f g rest)
      = some ((e : Int), (f : Int), (g : Int), rest) := by
  unfold scanLine4 stubLine4
  rw [expectLit_append]
  simp only [Option.some_bind]
  rw [expectSpaceRun_cons_space]
  simp only [Option.some_bind]
  rw [dropWhile_append_eq_self _ (natToDec_ne_nil e)
    (fun x hxm => digit_not_fmtSpaceNoNL
      (natToDec_all_digits e x (List.take_subset _ _ hxm)))]
  rw [scanInt_digits he (by decide)]
  simp only [Option.some_bind]
  rw [expectSpaceRun_cons_space]
  simp only [Option.some_bind]
  rw [dropWhile_append_eq_self _ (by decide) (by decide)]
  rw [expectLit_append]
  simp only [Option.some_bind]
  rw [expectSpaceRun_cons_space]
  simp only [Option.some_bind]
  rw [dropWhile_append_eq_self _ (natToDec_ne_nil f)
    (fun x hxm => digit_not_fmtSpaceNoNL
      (natToDec_all_digits f x (List.take_subset _ _ hxm)))]
  rw [scanInt_digits hf (by decide)]
  simp only [Option.some_bind]
  rw [expectSpaceRun_cons_space]
  simp only [Option.some_bind]
  rw [dropWhile_append_eq_self _ (by decide) (by decide)]
  rw [expectLit_append]
  simp only [Option.some_bind]
  rw [expectSpaceRun_cons_space]
  simp only [Option.some_bind]
  rw [dropWhile_append_eq_self _ (natToDec_ne_nil g)
    (fun x hxm => digit_not_fmtSpaceNoNL
      (natToDec_all_digits g x (List.take_subset _ _ hxm)))]
  rw [scanInt_digits hg (by decide)]
  simp only [Option.some_bind]
  rw [expectNL_space_nl]
  rfl

theorem renderStub_no_cr (a b c d e f g : Nat) :
    (renderStub a b c d e f g).all (fun c => !(c = '\r')) = true := by
  unfold renderStub stubLine1 stubLine2 stubLine3 stubLine4
  simp [List.all_append, natToDec_no_cr]

theorem parseStubStats_render (a b c d e f g : Nat)
    (ha : a < 2 ^ 63) (hb : b < 2 ^ 63) (hc : c < 2 ^ 63) (hd : d < 2 ^ 63)
    (he : e < 2 ^ 63) (hf : f < 2 ^ 63) (hg : g < 2 ^ 63) :
    parseStubStats (renderStub a b c d e f g)
      = some ⟨(a : Int), (b : Int), (c : Int), (e : Int), (f : Int), (g : Int),
          (d : Int)⟩ := by
  unfold parseStubStats
  rw [collapseCRLF_eq_self (renderStub_no_cr a b c d e f g)]
  unfold renderStub
  rw [scanLine1_eval a ha]
  simp only [Option.some_bind]
  rw [scanLine2_eval]
  simp only [Option.some_bind]
  rw [scanLine3_eval b c d hb hc hd]
  simp only [Option.some_bind]
  rw [scanLine4_eval e f g he hf hg]
  simp only [Option.map_some']

theorem getStubStats_ok_iff (oc : RespOutcome) (s : StubStats) :
    getStubStats oc = .ok s ↔
      ∃ body, oc = .resp 200 (.ok body) ∧ parseStubStats body = some s := by
  cases oc with
  | reqErr => simp [getStubStats]
  | doErr => simp [getStubStats]
  | resp code bodyRead =>
    by_cases hcode : code = 200
    · subst hcode
      cases bodyRead with
      | error u => simp [getStubStats]
      | ok body =>
        simp only [getStubStats, ne_eq, not_true_eq_false, if_false,
          reduceIte]
        cases hp : parseStubStats body with
        | none => simp [hp]
        | some s2 => simp [hp, eq_comm]
    · simp [getStubStats, hcode]

/-- C2 corrected: `GetStubStats` fails on a non-200 status and on any body
whose scan of the fixed positional template fails (extra fields within a
line, missing fields, or non-numeric values all fail the scan), and on
success it returns exactly the seven counters in template order — active;
the accepted/handled/requests triple; reading, writing, waiting — as the
rendered-body roundtrip shows; but the template is matched as a prefix of
the body: content after the template's final line (and a missing final
newline) is ignored, so such deviations do NOT cause an error. -/
theorem getStubStats_template (a b c d e f g : Nat)
    (ha : a < 2 ^ 63) (hb : b < 2 ^ 63) (hc : c < 2 ^ 63) (hd : d < 2 ^ 63)
    (he : e < 2 ^ 63) (hf : f < 2 ^ 63) (hg : g < 2 ^ 63) :
    (∀ oc s, getStubStats oc = .ok s ↔
      ∃ body, oc = .resp 200 (.ok body) ∧ parseStubStats body = some s) ∧
    getStubStats (.resp 200 (.ok (renderStub a b c d e f g)))
      = .ok ⟨(a : Int), (b : Int), (c : Int), (e : Int), (f : Int), (g : Int),
          (d : Int)⟩ := by
  refine ⟨getStubStats_ok_iff, ?_⟩
  exact (getStubStats_ok_iff _ _).mpr
    ⟨renderStub a b c d e f g, rfl, parseStubStats_render a b c d e f g
      ha hb hc hd he hf hg⟩

/-- Witness for C2 at the seven counters 1..7. -/
theorem getStubStats_template_witness :
    getStubStats (.resp 200 (.ok (renderStub 1 2 3 4 5 6 7)))
      = .ok ⟨1, 2, 3, 5, 6, 7, 4⟩ :=
  (getStubStats_template 1 2 3 4 5 6 7 (by decide) (by decide) (by decide)
    (by decide) (by decide) (by decide) (by decide)).2

/-- C2 counterexample: a body that deviates from the fixed template by
carrying an extra trailing line after the template's last field is accepted
— `GetStubStats` succeeds on it instead of returning an error. -/
theorem getStubStats_trailing_extra_counterexample :
    getStubStats (.resp 200 (.ok
      ("Active connections: 1\nserver accepts handled requests\n2 3 4\nReading: 5 Writing: 6 Waiting: 7\nEXTRA garbage 99".toList)))
      = .ok ⟨1, 2, 3, 5, 6, 7, 4⟩ := by
  rfl

/-! ## Theorems: the directive scan -/

theorem takeToSemi_length : ∀ {l v r : List Char},
    takeToSemi l = some (v, r) → r.length < l.length := by
  intro l
  induction l with
  | nil => intro v r h; simp [takeToSemi] at h
  | cons a as ih =>
    intro v r h
    simp only [takeToSemi] at h
    by_cases ha : a = ';'
    · rw [if_pos ha] at h
      cases h
      simp
    · rw [if_neg ha] at h
      by_cases hn : a = '\n'
      · rw [if_pos hn] at h; simp at h
      · rw [if_neg hn, Option.map_eq_some'] at h
        obtain ⟨⟨v2, r2⟩, h2, heq⟩ := h
        cases heq
        have := ih h2
        simp only [List.length_cons]
        omega

theorem spaceRun1_length {m m2 : List Char} (h : spaceRun1 m = some m2) :
    m2.length < m.length := by
  cases m with
  | nil => simp [spaceRun1] at h
  | cons c rest =>
    simp only [spaceRun1] at h
    by_cases hs : reSpace c
    · rw [if_pos hs] at h
      cases h
      have := (List.dropWhile_sublist (l := rest) reSpace).length_le
      simp only [List.length_cons]
      omega
    · rw [if_neg hs] at h; simp at h

theorem ppTryHere_length {l v r : List Char} (h : ppTryHere l = some (v, r)) :
    r.length < l.length := by
  unfold ppTryHere at h
  by_cases hp : ppLit.isPrefixOf l
  · rw [if_pos hp, Option.bind_eq_some] at h
    obtain ⟨m, hm, hts⟩ := h
    have h1 := takeToSemi_length hts
    have h2 := spaceRun1_length hm
    have h3 : (l.drop 10).length ≤ l.length := by
      rw [List.length_drop]; omega
    omega
  · rw [if_neg hp] at h; simp at h

theorem scanPPAux_nil (fuel : Nat) : scanPPAux fuel [] = [] := by
  cases fuel <;> rfl

theorem scanPPAux_congr : ∀ (f1 f2 : Nat) (l : List Char),
    l.length ≤ f1 → l.length ≤ f2 → scanPPAux f1 l = scanPPAux f2 l := by
  intro f1
  induction f1 with
  | zero =>
    intro f2 l h1 _
    have : l = [] := List.eq_nil_of_length_eq_zero (by omega)
    subst this
    rw [scanPPAux_nil, scanPPAux_nil]
  | succ f ih =>
    intro f2 l h1 h2
    cases l with
    | nil => rw [scanPPAux_nil, scanPPAux_nil]
    | cons c cs =>
      cases f2 with
      | zero => simp at h2
      | succ f2b =>
        simp only [scanPPAux]
        simp only [List.length_cons] at h1 h2
        cases h : ppTryHere (c :: cs) with
        | none => exact ih f2b cs (by omega) (by omega)
        | some vr =>
          have hlen := ppTryHere_length (l := c :: cs) (v := vr.1) (r := vr.2)
            (by rw [h])
          simp only [List.length_cons] at hlen
          show vr.1 :: scanPPAux f vr.2 = vr.1 :: scanPPAux f2b vr.2
          rw [ih f2b vr.2 (by omega) (by omega)]

theorem scanPP_cons_match {c : Char} {cs v rest : List Char}
    (h : ppTryHere (c :: cs) = some (v, rest)) :
    scanPP (c :: cs) = v :: scanPP rest := by
  have hlen := ppTryHere_length h
  simp only [List.length_cons] at hlen
  unfold scanPP
  simp only [List.length_cons, scanPPAux, h]
  rw [scanPPAux_congr cs.length rest.length rest (by omega) le_rfl]

theorem scanPP_cons_skip {c : Char} {cs : List Char}
    (h : ppTryHere (c :: cs) = none) : scanPP (c :: cs) = scanPP cs := by
  unfold scanPP
  simp only [List.length_cons, scanPPAux, h]

theorem ppTryHere_nil (name : Unit) : ppTryHere [] = none := by
  have : ppLit.isPrefixOf ([] : List Char) = false := by decide
  simp [ppTryHere, this]

theorem scanPP_match {l v rest : List Char} (h : ppTryHere l = some (v, rest)) :
    scanPP l = v :: scanPP rest := by
  cases l with
  | nil => rw [ppTryHere_nil ()] at h; exact absurd h (by simp)
  | cons c cs => exact scanPP_cons_match h

theorem scanPP_of_no_pp : ∀ {l : List Char},
    containsSeq ppLit l = false → scanPP l = [] := by
  intro l
  induction l with
  | nil => intro _; rfl
  | cons c cs ih =>
    intro h
    simp only [containsSeq, Bool.or_eq_false_iff] at h
    have hskip : ppTryHere (c :: cs) = none := by
      unfold ppTryHere
      rw [if_neg (by simp [h.1])]
    rw [scanPP_cons_skip hskip]
    exact ih h.2

/-- C6: over any configuration text in which the directive keyword does not
occur at all (so the text contains zero forwarding directives), and any
readable file holding it, `extractProxyTarget` returns the empty target
sequence and a nil error. -/
theorem extractProxyTarget_no_directives (readF : List Char → Option (List Char))
    (path content : List Char) (hread : readF path = some content)
    (hno : containsSeq ppLit content = false) :
    extractProxyTarget readF path = some [] := by
  unfold extractProxyTarget
  rw [hread, Option.map_some']
  unfold extractTargets
  rw [scanPP_of_no_pp hno]
  rfl

/-- Witness for C6: a text with an upstream block but no forwarding
directive yields no targets and no error. -/
theorem extractProxyTarget_no_directives_witness :
    extractProxyTarget
      (fun _ => some "upstream b \x7b server 10.0.0.1:80; \x7d\n".toList) cPath
      = some [] :=
  extractProxyTarget_no_directives _ cPath
    "upstream b \x7b server 10.0.0.1:80; \x7d\n".toList rfl (by decide)

/-! ## Theorems: the anchored classifiers and direct targets -/

theorem splitAtColon_chars {c : Char} : ∀ {l : List Char}, c ∈ l →
    c ∈ (splitAtColon l).1 ∨ c = ':' ∨
      ∃ p, (splitAtColon l).2 = some p ∧ c ∈ p := by
  intro l
  induction l with
  | nil => intro hc; simp at hc
  | cons a as ih =>
    intro hc
    by_cases ha : a = ':'
    · simp only [splitAtColon, if_pos ha]
      rcases List.mem_cons.mp hc with rfl | hmem
      · exact Or.inr (Or.inl ha)
      · exact Or.inr (Or.inr ⟨as, rfl, hmem⟩)
    · simp only [splitAtColon, if_neg ha]
      rcases List.mem_cons.mp hc with rfl | hmem
      · exact Or.inl (List.mem_cons_self _ _)
      · rcases ih hmem with h1 | h2 | ⟨p, hp, hcp⟩
        · exact Or.inl (List.mem_cons_of_mem _ h1)
        · exact Or.inr (Or.inl h2)
        · exact Or.inr (Or.inr ⟨p, hp, hcp⟩)

theorem splitOnDot_chars {c : Char} : ∀ {l : List Char}, c ∈ l →
    c = '.' ∨ ∃ part ∈ splitOnDot l, c ∈ part := by
  intro l
  induction l with
  | nil => intro hc; simp at hc
  | cons a as ih =>
    intro hc
    by_cases ha : a = '.'
    · rcases List.mem_cons.mp hc with rfl | hmem
      · exact Or.inl ha
      · rcases ih hmem with h1 | ⟨part, hpart, hcp⟩
        · exact Or.inl h1
        · refine Or.inr ⟨part, ?_, hcp⟩
          simp only [splitOnDot, if_pos ha]
          exact List.mem_cons_of_mem _ hpart
    · simp only [splitOnDot, if_neg ha]
      rcases List.mem_cons.mp hc with rfl | hmem
      · cases hsp : splitOnDot as with
        | nil => exact Or.inr ⟨[c], by simp, by simp⟩
        | cons p ps => exact Or.inr ⟨c :: p, by simp, by simp⟩
      · rcases ih hmem with h1 | ⟨part, hpart, hcp⟩
        · exact Or.inl h1
        · cases hsp : splitOnDot as with
          | nil => rw [hsp] at hpart; simp at hpart
          | cons p ps =>
            rw [hsp] at hpart
            rcases List.mem_cons.mp hpart with rfl | hp2
            · exact Or.inr ⟨a :: part, by simp, List.mem_cons_of_mem _ hcp⟩
            · exact Or.inr ⟨part, by simp [hp2], hcp⟩

theorem digit_isTargetCh {c : Char} (h : isDigitCh c = true) :
    isTargetCh c = true := by
  simp [isTargetCh, isAlnumCh, h]

theorem labelCh_isTargetCh {c : Char} (h : isLabelCh c = true) :
    isTargetCh c = true := by
  simp only [isLabelCh, Bool.or_eq_true] at h
  rcases h with h | h <;> simp [isTargetCh, h]

theorem isLabel_chars {part : List Char} (h : isLabel part = true) :
    ∀ c ∈ part, isLabelCh c = true := by
  cases part with
  | nil => simp [isLabel] at h
  | cons d ds =>
    simp only [isLabel, Bool.and_eq_true] at h
    intro c hc
    exact List.all_eq_true.mp h.1.2 c hc

theorem isOctet_chars {part : List Char} (h : isOctet part = true) :
    ∀ c ∈ part, isDigitCh c = true := by
  simp only [isOctet, Bool.and_eq_true] at h
  intro c hc
  exact List.all_eq_true.mp h.2 c hc

theorem format_chars {v : List Char}
    (h : (ipFormat v || domainFormat v) = true) :
    ∀ c ∈ v, isTargetCh c = true := by
  intro c hc
  rcases splitAtColon_chars hc with h1 | h2 | ⟨p, hp, hcp⟩
  · rcases splitOnDot_chars h1 with rfl | ⟨part, hpart, hcpart⟩
    · decide
    · rcases Bool.or_eq_true_iff.mp h with hip | hdom
      · simp only [ipFormat, Bool.and_eq_true] at hip
        exact digit_isTargetCh
          (isOctet_chars (List.all_eq_true.mp hip.1.2 part hpart) c hcpart)
      · simp only [domainFormat, Bool.and_eq_true] at hdom
        exact labelCh_isTargetCh
          (isLabel_chars (List.all_eq_true.mp hdom.1 part hpart) c hcpart)
  · subst h2; decide
  · have hport : portOk (splitAtColon v).2 = true := by
      rcases Bool.or_eq_true_iff.mp h with hip | hdom
      · simp only [ipFormat, Bool.and_eq_true] at hip
        exact hip.2
      · simp only [domainFormat, Bool.and_eq_true] at hdom
        exact hdom.2
    rw [hp] at hport
    simp only [portOk, Bool.and_eq_true] at hport
    exact digit_isTargetCh (List.all_eq_true.mp hport.2 c hcp)

theorem format_ne_nil {v : List Char}
    (h : (ipFormat v || domainFormat v) = true) : v ≠ [] := by
  intro hv
  subst hv
  exact absurd h (by decide)

theorem targetCh_not_fmtSpace {c : Char} (h : isTargetCh c = true) :
    fmtSpace c = false := by
  unfold fmtSpace
  have h1 : ¬(c = '\t') := fun he => absurd h (by subst he; decide)
  have h2 : ¬(c = '\n') := fun he => absurd h (by subst he; decide)
  have h3 : ¬(c = '\x0b') := fun he => absurd h (by subst he; decide)
  have h4 : ¬(c = '\x0c') := fun he => absurd h (by subst he; decide)
  have h5 : ¬(c = '\r') := fun he => absurd h (by subst he; decide)
  have h6 : ¬(c = ' ') := fun he => absurd h (by subst he; decide)
  simp [h1, h2, h3, h4, h5, h6]

theorem targetCh_not_reSpace {c : Char} (h : isTargetCh c = true) :
    reSpace c = false := by
  unfold reSpace
  have h1 : ¬(c = '\t') := fun he => absurd h (by subst he; decide)
  have h2 : ¬(c = '\n') := fun he => absurd h (by subst he; decide)
  have h4 : ¬(c = '\x0c') := fun he => absurd h (by subst he; decide)
  have h5 : ¬(c = '\r') := fun he => absurd h (by subst he; decide)
  have h6 : ¬(c = ' ') := fun he => absurd h (by subst he; decide)
  simp [h1, h2, h4, h5, h6]

theorem targetCh_ne_semi {c : Char} (h : isTargetCh c = true) : ¬(c = ';') :=
  fun he => absurd h (by subst he; decide)

theorem targetCh_ne_nl {c : Char} (h : isTargetCh c = true) : ¬(c = '\n') :=
  fun he => absurd h (by subst he; decide)

theorem targetCh_ne_slash {c : Char} (h : isTargetCh c = true) : ¬(c = '/') :=
  fun he => absurd h (by subst he; decide)

theorem dropWhile_eq_self_of_head {p : Char → Bool} {l : List Char}
    (h : ∀ c ∈ l.take 1, p c = false) : l.dropWhile p = l := by
  cases l with
  | nil => rfl
  | cons c cs => exact List.dropWhile_cons_of_neg (by simp [h c (by simp)])

theorem trimSpace_eq_self {l : List Char} (h : ∀ c ∈ l, fmtSpace c = false) :
    trimSpace l = l := by
  unfold trimSpace
  rw [dropWhile_eq_self_of_head (fun c hc => h c (List.take_subset _ _ hc)),
    dropWhile_eq_self_of_head
      (fun c hc => h c (List.mem_reverse.mp (List.take_subset _ _ hc))),
    List.reverse_reverse]

theorem isPrefixOf_append_self (l X : List Char) :
    l.isPrefixOf (l ++ X) = true := by
  rw [List.isPrefixOf_iff_prefix]
  exact List.prefix_append l X

theorem not_isPrefixOf_of_no_slash {pat l : List Char} (hpat : '/' ∈ pat)
    (hl : ∀ c ∈ l, ¬(c = '/')) : pat.isPrefixOf l = false := by
  cases hb : pat.isPrefixOf l
  · rfl
  · exfalso
    have hpre : pat <+: l := List.isPrefixOf_iff_prefix.mp hb
    exact hl '/' (hpre.subset hpat) rfl

theorem stripHttps_of_no_slash {v : List Char} (hs : ∀ c ∈ v, ¬(c = '/')) :
    stripHttps v = v := by
  unfold stripHttps
  rw [not_isPrefixOf_of_no_slash (by decide) hs]
  simp

theorem stripScheme_of_no_slash {v : List Char} (hs : ∀ c ∈ v, ¬(c = '/')) :
    stripScheme v = v := by
  unfold stripScheme
  rw [not_isPrefixOf_of_no_slash (by decide) hs]
  simp only [Bool.false_eq_true, if_false]
  exact stripHttps_of_no_slash hs

theorem stripScheme_http {v : List Char} (hs : ∀ c ∈ v, ¬(c = '/')) :
    stripScheme ("http://".toList ++ v) = v := by
  unfold stripScheme
  rw [isPrefixOf_append_self]
  simp only [if_true]
  rw [List.drop_left' (show ("http://".toList).length = 7 by decide)]
  exact stripHttps_of_no_slash hs

theorem stripScheme_https {v : List Char} (hs : ∀ c ∈ v, ¬(c = '/')) :
    stripScheme ("https://".toList ++ v) = v := by
  unfold stripScheme
  have hfalse : ("http://".toList).isPrefixOf ("https://".toList ++ v) = false := rfl
  rw [hfalse]
  simp only [Bool.false_eq_true, if_false]
  unfold stripHttps
  rw [isPrefixOf_append_self]
  simp only [if_true]
  exact List.drop_left' (by decide)

theorem spaceRun1_cons_space (Y : List Char) :
    spaceRun1 (' ' :: Y) = some (Y.dropWhile reSpace) := by
  simp [spaceRun1, reSpace]

theorem takeToSemi_append {xs : List Char} (rest : List Char)
    (hx : ∀ c ∈ xs, ¬(c = ';') ∧ ¬(c = '\n')) :
    takeToSemi (xs ++ ';' :: rest) = some (xs, rest) := by
  induction xs with
  | nil => simp [takeToSemi]
  | cons a as ih =>
    have ha := hx a (by simp)
    simp only [List.cons_append, takeToSemi, List.append_eq]
    rw [if_neg ha.1, if_neg ha.2, ih (fun c hc => hx c (by simp [hc]))]
    rfl

theorem scanPP_renderDirective (scheme v : List Char)
    (hok : ∀ c ∈ scheme ++ v, ¬(c = ';') ∧ ¬(c = '\n'))
    (hhead : ∀ c ∈ (scheme ++ v).take 1, reSpace c = false)
    (hne : scheme ++ v ≠ []) :
    scanPP (renderDirective scheme v) = [scheme ++ v] := by
  unfold renderDirective
  have hassoc : scheme ++ (v ++ [';']) = (scheme ++ v) ++ ';' :: [] := by
    rw [List.append_assoc]
  have htry : ppTryHere (ppLit ++ ' ' :: (scheme ++ (v ++ [';'])))
      = some (scheme ++ v, []) := by
    unfold ppTryHere
    rw [if_pos (isPrefixOf_append_self _ _),
      List.drop_left' (show ppLit.length = 10 by decide),
      spaceRun1_cons_space]
    simp only [Option.some_bind]
    rw [hassoc, dropWhile_eq_self_of_head
      (by
        cases hsv : scheme ++ v with
        | nil => exact absurd hsv hne
        | cons x xs =>
          intro c hc
          simp only [List.cons_append, List.take_succ_cons, List.take_zero,
            List.mem_singleton] at hc
          subst hc
          exact hhead c (by rw [hsv]; simp)),
      takeToSemi_append [] hok]
  rw [scanPP_match htry]
  rfl

/-- C5: for every value matching the IPv4-with-optional-port or
hostname-with-optional-port pattern, a directive carrying it with a leading
`http://`, a leading `https://`, or no scheme at all produces exactly that
stripped value, verbatim, as the single target. -/
theorem extractTargets_matching_value (v : List Char)
    (hfmt : (ipFormat v || domainFormat v) = true) :
    extractTargets (renderDirective "http://".toList v) = [v] ∧
    extractTargets (renderDirective "https://".toList v) = [v] ∧
    extractTargets (renderDirective [] v) = [v] := by
  have hchars := format_chars hfmt
  have hne := format_ne_nil hfmt
  have hnoslash : ∀ c ∈ v, ¬(c = '/') :=
    fun c hc => targetCh_ne_slash (hchars c hc)
  have hnospace : ∀ c ∈ v, fmtSpace c = false :=
    fun c hc => targetCh_not_fmtSpace (hchars c hc)
  have hvok : ∀ c ∈ v, ¬(c = ';') ∧ ¬(c = '\n') :=
    fun c hc => ⟨targetCh_ne_semi (hchars c hc), targetCh_ne_nl (hchars c hc)⟩
  refine ⟨?_, ?_, ?_⟩
  · have hok : ∀ c ∈ "http://".toList ++ v, ¬(c = ';') ∧ ¬(c = '\n') := by
      intro c hcm
      rcases List.mem_append.mp hcm with hcl | hcv
      · exact (by decide :
          ∀ x ∈ "http://".toList, ¬(x = ';') ∧ ¬(x = '\n')) c hcl
      · exact hvok c hcv
    unfold extractTargets
    rw [scanPP_renderDirective "http://".toList v hok
      (by
        intro c hc
        rw [show ("http://".toList ++ v).take 1 = ['h'] from rfl] at hc
        simp at hc
        subst hc
        decide)
      (by simp)]
    show resolveValue _ _ ++ resolveAll _ [] = [v]
    unfold resolveAll resolveValue
    rw [trimSpace_eq_self (by
      intro c hcm
      rcases List.mem_append.mp hcm with hcl | hcv
      · exact (by decide : ∀ x ∈ "http://".toList, fmtSpace x = false) c hcl
      · exact hnospace c hcv)]
    rw [stripScheme_http hnoslash]
    unfold resolveTarget
    rw [if_pos hfmt]
    simp
  · have hok : ∀ c ∈ "https://".toList ++ v, ¬(c = ';') ∧ ¬(c = '\n') := by
      intro c hcm
      rcases List.mem_append.mp hcm with hcl | hcv
      · exact (by decide :
          ∀ x ∈ "https://".toList, ¬(x = ';') ∧ ¬(x = '\n')) c hcl
      · exact hvok c hcv
    unfold extractTargets
    rw [scanPP_renderDirective "https://".toList v hok
      (by
        intro c hc
        rw [show ("https://".toList ++ v).take 1 = ['h'] from rfl] at hc
        simp at hc
        subst hc
        decide)
      (by simp)]
    show resolveValue _ _ ++ resolveAll _ [] = [v]
    unfold resolveAll resolveValue
    rw [trimSpace_eq_self (by
      intro c hcm
      rcases List.mem_append.mp hcm with hcl | hcv
      · exact (by decide : ∀ x ∈ "https://".toList, fmtSpace x = false) c hcl
      · exact hnospace c hcv)]
    rw [stripScheme_https hnoslash]
    unfold resolveTarget
    rw [if_pos hfmt]
    simp
  · have hok : ∀ c ∈ ([] : List Char) ++ v, ¬(c = ';') ∧ ¬(c = '\n') := by
      intro c hcm
      exact hvok c (by simpa using hcm)
    unfold extractTargets
    rw [scanPP_renderDirective [] v hok
      (by
        intro c hc
        simp only [List.nil_append] at hc
        exact targetCh_not_reSpace (hchars c (List.take_subset _ _ hc)))
      (by simpa using hne)]
    show resolveValue _ _ ++ resolveAll _ [] = [v]
    unfold resolveAll resolveValue
    rw [List.nil_append, trimSpace_eq_self hnospace,
      stripScheme_of_no_slash hnoslash]
    unfold resolveTarget
    rw [if_pos hfmt]
    simp

/-- Witness for C5 at an IPv4-with-port value and at a hostname value. -/
theorem extractTargets_matching_value_witness :
    extractTargets (renderDirective "http://".toList "10.0.0.5:9000".toList)
      = ["10.0.0.5:9000".toList] ∧
    extractTargets (renderDirective "https://".toList "example-host.com:443".toList)
      = ["example-host.com:443".toList] :=
  ⟨(extractTargets_matching_value "10.0.0.5:9000".toList (by decide)).1,
    (extractTargets_matching_value "example-host.com:443".toList (by decide)).2.1⟩

/-! ## Theorems: the upstream block resolution -/

theorem captureAddr_length {l v r : List Char} (h : captureAddr l = some (v, r)) :
    r.length < l.length := by
  unfold captureAddr at h
  rw [Option.bind_eq_some] at h
  obtain ⟨rest, hsemi, hif⟩ := h
  by_cases he : l.takeWhile notSemiSpace = []
  · rw [if_pos he] at hif; simp at hif
  · rw [if_neg he] at hif
    have hr : rest = r := congrArg Prod.snd (Option.some.inj hif)
    subst hr
    have h2 : rest.length < (l.dropWhile notSemiSpace).length := by
      cases hd : l.dropWhile notSemiSpace with
      | nil => rw [hd] at hsemi; simp [expectSemi] at hsemi
      | cons a as =>
        rw [hd] at hsemi
        simp only [expectSemi] at hsemi
        by_cases hsc : a = ';'
        · rw [if_pos hsc] at hsemi
          have h3 : as = rest := Option.some.inj hsemi
          rw [← h3]
          simp only [List.length_cons]
          omega
        · rw [if_neg hsc] at hsemi; simp at hsemi
    have h3 := (List.dropWhile_sublist (l := l) notSemiSpace).length_le
    have h4 : 0 < (l.takeWhile notSemiSpace).length := List.length_pos.mpr he
    have h1 : (l.takeWhile notSemiSpace).length
        + (l.dropWhile notSemiSpace).length = l.length := by
      rw [← List.length_append, List.takeWhile_append_dropWhile]
    omega

theorem svBacktrack_length : ∀ (revRun tail v r : List Char),
    svBacktrack revRun tail = some (v, r) →
    r.length < revRun.length + tail.length := by
  intro revRun
  induction revRun with
  | nil =>
    intro tail v r h
    have h2 : captureAddr tail = some (v, r) := h
    have := captureAddr_length h2
    omega
  | cons a revRun2 ih =>
    intro tail v r h
    simp only [svBacktrack] at h
    cases hc : captureAddr tail with
    | none =>
      rw [hc] at h
      have := ih (a :: tail) v r h
      simp only [List.length_cons] at this ⊢
      omega
    | some vr =>
      rw [hc] at h
      cases h
      have := captureAddr_length hc
      simp only [List.length_cons]
      omega

theorem svAfter_length {m rr tl : List Char} (h : svAfter m = some (rr, tl)) :
    rr.length + tl.length < m.length := by
  cases m with
  | nil => simp [svAfter] at h
  | cons c rest =>
    simp only [svAfter] at h
    by_cases hs : reSpace c
    · rw [if_pos hs] at h
      cases h
      have : (rest.takeWhile reSpace).length
          + (rest.dropWhile reSpace).length = rest.length := by
        rw [← List.length_append, List.takeWhile_append_dropWhile]
      simp only [List.length_reverse, List.length_cons]
      omega
    · rw [if_neg hs] at h; simp at h

theorem svTryHere_length {l v r : List Char} (h : svTryHere l = some (v, r)) :
    r.length < l.length := by
  unfold svTryHere at h
  by_cases hp : svLit.isPrefixOf l
  · rw [if_pos hp, Option.bind_eq_some] at h
    obtain ⟨⟨rr, tl⟩, hafter, hbt⟩ := h
    have h1 := svBacktrack_length rr tl v r hbt
    have h2 := svAfter_length hafter
    have h3 : (l.drop 6).length ≤ l.length := by
      rw [List.length_drop]; omega
    omega
  · rw [if_neg hp] at h; simp at h

theorem scanServersAux_nil (fuel : Nat) : scanServersAux fuel [] = [] := by
  cases fuel <;> rfl

theorem scanServersAux_congr : ∀ (f1 f2 : Nat) (l : List Char),
    l.length ≤ f1 → l.length ≤ f2 → scanServersAux f1 l = scanServersAux f2 l := by
  intro f1
  induction f1 with
  | zero =>
    intro f2 l h1 _
    have : l = [] := List.eq_nil_of_length_eq_zero (by omega)
    subst this
    rw [scanServersAux_nil, scanServersAux_nil]
  | succ f ih =>
    intro f2 l h1 h2
    cases l with
    | nil => rw [scanServersAux_nil, scanServersAux_nil]
    | cons c cs =>
      cases f2 with
      | zero => simp at h2
      | succ f2b =>
        simp only [scanServersAux]
        simp only [List.length_cons] at h1 h2
        cases h : svTryHere (c :: cs) with
        | none => exact ih f2b cs (by omega) (by omega)
        | some vr =>
          have hlen := svTryHere_length (l := c :: cs) (v := vr.1) (r := vr.2)
            (by rw [h])
          simp only [List.length_cons] at hlen
          show vr.1 :: scanServersAux f vr.2 = vr.1 :: scanServersAux f2b vr.2
          rw [ih f2b vr.2 (by omega) (by omega)]

theorem scanServers_cons_match {c : Char} {cs v rest : List Char}
    (h : svTryHere (c :: cs) = some (v, rest)) :
    scanServers (c :: cs) = v :: scanServers rest := by
  have hlen := svTryHere_length h
  simp only [List.length_cons] at hlen
  unfold scanServers
  simp only [List.length_cons, scanServersAux, h]
  rw [scanServersAux_congr cs.length rest.length rest (by omega) le_rfl]

theorem scanServers_cons_skip {c : Char} {cs : List Char}
    (h : svTryHere (c :: cs) = none) : scanServers (c :: cs) = scanServers cs := by
  unfold scanServers
  simp only [List.length_cons, scanServersAux, h]

theorem svTryHere_nil : svTryHere [] = none := by
  have : svLit.isPrefixOf ([] : List Char) = false := by decide
  simp [svTryHere, this]

theorem scanServers_match {l v rest : List Char}
    (h : svTryHere l = some (v, rest)) : scanServers l = v :: scanServers rest := by
  cases l with
  | nil => rw [svTryHere_nil] at h; exact absurd h (by simp)
  | cons c cs => exact scanServers_cons_match h

theorem takeToRBrace_append {xs : List Char} (rest : List Char)
    (hx : ∀ c ∈ xs, ¬(c = '\x7d')) :
    takeToRBrace (xs ++ '\x7d' :: rest) = some (xs, rest) := by
  induction xs with
  | nil => simp [takeToRBrace]
  | cons a as ih =>
    have ha := hx a (by simp)
    simp only [List.cons_append, takeToRBrace, List.append_eq]
    rw [if_neg ha, ih (fun c hc => hx c (by simp [hc]))]
    rfl

theorem goodName_parts {c : Char} (h : goodNameCh c = true) :
    fmtSpace c = false ∧ ¬(c = ';') ∧ ¬(c = '\x7b') ∧ ¬(c = '\x7d') ∧
      ¬(c = '/') := by
  simp only [goodNameCh, Bool.not_eq_true'] at h
  simp only [Bool.or_eq_false_iff] at h
  refine ⟨h.1.1.1.1, ?_, ?_, ?_, ?_⟩ <;> simp_all

theorem reSpace_fmtSpace {c : Char} (h : reSpace c = true) : fmtSpace c = true := by
  simp only [reSpace, Bool.or_eq_true, decide_eq_true_eq] at h
  rcases h with ((((h | h) | h) | h) | h) <;> subst h <;> decide

theorem goodName_not_reSpace {c : Char} (h : goodNameCh c = true) :
    reSpace c = false := by
  cases hr : reSpace c
  · rfl
  · exact absurd (reSpace_fmtSpace hr) (by simp [(goodName_parts h).1])

theorem goodName_ne_nl {c : Char} (h : goodNameCh c = true) : ¬(c = '\n') := by
  intro he
  subst he
  exact absurd h (by decide)

theorem goodAddr_parts {c : Char} (h : goodAddrCh c = true) :
    fmtSpace c = false ∧ ¬(c = ';') ∧ ¬(c = '\x7d') := by
  simp only [goodAddrCh, Bool.not_eq_true'] at h
  simp only [Bool.or_eq_false_iff] at h
  refine ⟨h.1.1, ?_, ?_⟩ <;> simp_all

theorem goodAddr_not_reSpace {c : Char} (h : goodAddrCh c = true) :
    reSpace c = false := by
  cases hr : reSpace c
  · rfl
  · exact absurd (reSpace_fmtSpace hr) (by simp [(goodAddr_parts h).1])

theorem goodAddr_notSemiSpace {c : Char} (h : goodAddrCh c = true) :
    notSemiSpace c = true := by
  have hp := goodAddr_parts h
  have hsp : ¬(c = ' ') := by
    intro he
    subst he
    exact absurd h (by decide)
  simp [notSemiSpace, hp.2.1, hsp]

theorem renderBody_cons (a : List Char) (rest : List (List Char)) :
    renderBody (a :: rest) = renderEntry a ++ renderBody rest := by
  unfold renderBody
  simp [List.append_assoc]

theorem scanServers_renderEntry (a R : List Char) (ha0 : a ≠ [])
    (ha1 : ∀ c ∈ a, goodAddrCh c = true) :
    scanServers (renderEntry a ++ R) = a :: scanServers R := by
  unfold renderEntry
  rw [List.cons_append]
  have hskip : svTryHere ('\n' :: ((svLit ++ ' ' :: (a ++ [';'])) ++ R)) = none := by
    have hpre : svLit.isPrefixOf ('\n' ::
        ((svLit ++ ' ' :: (a ++ [';'])) ++ R)) = false := rfl
    unfold svTryHere
    rw [if_neg (by rw [hpre]; exact Bool.false_ne_true)]
  rw [scanServers_cons_skip hskip, List.append_assoc, List.cons_append]
  obtain ⟨d, t, hdt⟩ := List.exists_cons_of_ne_nil ha0
  have hd : goodAddrCh d = true := ha1 d (by rw [hdt]; exact List.mem_cons_self _ _)
  have htry : svTryHere (svLit ++ ' ' :: ((a ++ [';']) ++ R)) = some (a, R) := by
    unfold svTryHere
    rw [if_pos (isPrefixOf_append_self _ _),
      List.drop_left' (show svLit.length = 6 by decide)]
    simp only [svAfter]
    rw [if_pos (by decide)]
    rw [List.append_assoc, List.singleton_append, hdt, List.cons_append]
    rw [List.takeWhile_cons_of_neg (by simp [goodAddr_not_reSpace hd]),
      List.dropWhile_cons_of_neg (by simp [goodAddr_not_reSpace hd])]
    simp only [List.reverse_nil, Option.some_bind]
    have hall : ∀ c ∈ d :: t, notSemiSpace c = true := by
      intro c hcm
      exact goodAddr_notSemiSpace (ha1 c (by rw [hdt]; exact hcm))
    have hcap : captureAddr (d :: (t ++ ';' :: R)) = some (d :: t, R) := by
      unfold captureAddr
      rw [show d :: (t ++ ';' :: R) = (d :: t) ++ ';' :: R from by simp]
      rw [List.dropWhile_append_of_pos (fun c hcm => hall c hcm),
        List.dropWhile_cons_of_neg (by decide)]
      rw [List.takeWhile_append_of_pos (fun c hcm => hall c hcm),
        List.takeWhile_cons_of_neg (by decide)]
      simp [expectSemi]
    exact hcap
  rw [scanServers_match htry]

theorem scanServers_renderBody : ∀ (addrs : List (List Char)),
    (∀ a ∈ addrs, a ≠ [] ∧ ∀ c ∈ a, goodAddrCh c = true) →
    scanServers (renderBody addrs) = addrs := by
  intro addrs
  induction addrs with
  | nil =>
    intro _
    rfl
  | cons a rest ih =>
    intro ha
    rw [renderBody_cons,
      scanServers_renderEntry a _ (ha a (List.mem_cons_self _ _)).1
        (ha a (List.mem_cons_self _ _)).2,
      ih (fun x hx => ha x (List.mem_cons_of_mem _ hx))]

theorem svLit_no_rbrace : ∀ c ∈ svLit, ¬(c = '\x7d') := by decide

theorem renderBody_no_rbrace : ∀ (addrs : List (List Char)),
    (∀ a ∈ addrs, a ≠ [] ∧ ∀ c ∈ a, goodAddrCh c = true) →
    ∀ c ∈ renderBody addrs, ¬(c = '\x7d') := by
  intro addrs
  induction addrs with
  | nil =>
    intro _ c hc
    simp [renderBody] at hc
    subst hc
    decide
  | cons a rest ih =>
    intro ha c hc
    rw [renderBody_cons] at hc
    rcases List.mem_append.mp hc with h1 | h1
    · unfold renderEntry at h1
      rcases List.mem_cons.mp h1 with rfl | h2
      · decide
      · rcases List.mem_append.mp h2 with h3 | h3
        · exact svLit_no_rbrace c h3
        · rcases List.mem_cons.mp h3 with rfl | h4
          · decide
          · rcases List.mem_append.mp h4 with h5 | h5
            · exact (goodAddr_parts
                ((ha a (List.mem_cons_self _ _)).2 c h5)).2.2
            · simp at h5
              subst h5
              decide
    · exact ih (fun x hx => ha x (List.mem_cons_of_mem _ hx)) c h1

theorem upTryHere_nil (name : List Char) : upTryHere name [] = none := by
  have : upLit.isPrefixOf ([] : List Char) = false := by decide
  simp [upTryHere, this]

theorem findUpstreamBlock_head {name l body : List Char}
    (h : upTryHere name l = some body) :
    findUpstreamBlock name l = some body := by
  cases l with
  | nil => rw [upTryHere_nil] at h; exact absurd h (by simp)
  | cons c cs => simp only [findUpstreamBlock, h]

theorem findUpstreamBlock_of_no_up {name : List Char} : ∀ {l : List Char},
    containsSeq upLit l = false → findUpstreamBlock name l = none := by
  intro l
  induction l with
  | nil => intro _; rfl
  | cons c cs ih =>
    intro h
    simp only [containsSeq, Bool.or_eq_false_iff] at h
    have hnone : upTryHere name (c :: cs) = none := by
      unfold upTryHere
      rw [if_neg (by simp [h.1])]
    simp only [findUpstreamBlock, hnone]
    exact ih h.2

theorem upTryHere_renderConfig (name : List Char) (addrs : List (List Char))
    (hn0 : name ≠ []) (hn1 : ∀ c ∈ name, goodNameCh c = true)
    (hbody : ∀ c ∈ renderBody addrs, ¬(c = '\x7d')) :
    upTryHere name (renderConfig name addrs) = some (renderBody addrs) := by
  unfold renderConfig renderUpstream upTryHere
  rw [List.append_assoc, List.cons_append]
  rw [if_pos (isPrefixOf_append_self _ _),
    List.drop_left' (show upLit.length = 8 by decide),
    spaceRun1_cons_space]
  simp only [Option.some_bind]
  rw [List.append_assoc]
  rw [dropWhile_eq_self_of_head (by
    cases hnm : name with
    | nil => exact absurd hnm hn0
    | cons x xs =>
      intro c hc
      simp only [List.cons_append, List.take_succ_cons, List.take_zero,
        List.mem_singleton] at hc
      subst hc
      exact goodName_not_reSpace (hn1 c (by rw [hnm]; simp)))]
  unfold upAfterName
  rw [if_pos (isPrefixOf_append_self _ _), List.drop_left' rfl]
  rw [List.cons_append, List.cons_append]
  rw [List.dropWhile_cons_of_pos (by decide),
    List.dropWhile_cons_of_neg (by decide)]
  simp only [expectLBrace]
  rw [if_pos trivial]
  simp only [Option.some_bind]
  rw [List.append_assoc, List.cons_append, List.cons_append, List.nil_append]
  rw [takeToRBrace_append _ hbody]
  rfl

theorem scanPP_append_skip : ∀ (P Q : List Char),
    (∀ i, i < P.length → ppLit.isPrefixOf ((P ++ Q).drop i) = false) →
    scanPP (P ++ Q) = scanPP Q := by
  intro P
  induction P with
  | nil => intro Q _; rw [List.nil_append]
  | cons c P2 ih =>
    intro Q h
    have h0 : ppLit.isPrefixOf (c :: (P2 ++ Q)) = false := by
      have := h 0 (by simp)
      simpa using this
    rw [List.cons_append, scanPP_cons_skip (by
      unfold ppTryHere
      rw [if_neg (by simp [h0])])]
    exact ih Q (fun i hi => by
      have := h (i + 1) (by simp only [List.length_cons]; omega)
      simpa using this)

theorem scanPP_renderDirectiveOnly (name : List Char) (hn0 : name ≠ [])
    (hn1 : ∀ c ∈ name, goodNameCh c = true) :
    scanPP (renderDirectiveOnly name) = [name] := by
  unfold renderDirectiveOnly
  have htry : ppTryHere (ppLit ++ ' ' :: (name ++ [';', '\n']))
      = some (name, ['\n']) := by
    unfold ppTryHere
    rw [if_pos (isPrefixOf_append_self _ _),
      List.drop_left' (show ppLit.length = 10 by decide),
      spaceRun1_cons_space]
    simp only [Option.some_bind]
    rw [dropWhile_eq_self_of_head (by
      cases hnm : name with
      | nil => exact absurd hnm hn0
      | cons x xs =>
        intro c hc
        simp only [List.cons_append, List.take_succ_cons, List.take_zero,
          List.mem_singleton] at hc
        subst hc
        exact goodName_not_reSpace (hn1 c (by rw [hnm]; simp)))]
    rw [show name ++ [';', '\n'] = name ++ ';' :: ['\n'] from rfl,
      takeToSemi_append ['\n'] (fun c hc =>
        ⟨(goodName_parts (hn1 c hc)).2.1, goodName_ne_nl (hn1 c hc)⟩)]
  rw [scanPP_match htry]
  rfl

/-- C4 corrected: a forwarding directive referencing an upstream group is
resolved through the group's block only when the referenced name fails BOTH
the IPv4 pattern and the hostname pattern (for example because it contains
an underscore); in that case the directive produces exactly the block's N
member addresses, in block order, and produces zero targets with no error
when no block with that exact name exists.  A directive whose referenced
name happens to match the hostname pattern bypasses the block entirely (see
the counterexample). -/
theorem extractTargets_upstream (name : List Char) (addrs : List (List Char))
    (hn0 : name ≠ []) (hn1 : ∀ c ∈ name, goodNameCh c = true)
    (hip : ipFormat name = false) (hdom : domainFormat name = false)
    (ha : ∀ a ∈ addrs, a ≠ [] ∧ ∀ c ∈ a, goodAddrCh c = true)
    (hpp : ∀ i, i < (renderUpstream name addrs).length →
      ppLit.isPrefixOf ((renderConfig name addrs).drop i) = false)
    (hup : containsSeq upLit (renderDirectiveOnly name) = false) :
    extractTargets (renderConfig name addrs) = addrs ∧
    extractTargets (renderDirectiveOnly name) = [] := by
  have hnofmt : (ipFormat name || domainFormat name) = false := by
    rw [hip, hdom]
    rfl
  have htrim : trimSpace name = name :=
    trimSpace_eq_self (fun c hc => (goodName_parts (hn1 c hc)).1)
  have hstrip : stripScheme name = name :=
    stripScheme_of_no_slash (fun c hc => (goodName_parts (hn1 c hc)).2.2.2.2)
  constructor
  · unfold extractTargets
    have hsplit : renderConfig name addrs
        = renderUpstream name addrs ++ renderDirectiveOnly name := rfl
    rw [hsplit, scanPP_append_skip _ _ (by
      intro i hi
      have := hpp i hi
      rw [hsplit] at this
      exact this)]
    rw [scanPP_renderDirectiveOnly name hn0 hn1]
    show resolveValue _ _ ++ resolveAll _ [] = addrs
    unfold resolveAll resolveValue
    rw [htrim, hstrip]
    unfold resolveTarget
    rw [if_neg (by simp [hnofmt])]
    unfold findUpstreamServers
    rw [← hsplit, findUpstreamBlock_head
      (upTryHere_renderConfig name addrs hn0 hn1 (renderBody_no_rbrace addrs ha))]
    simp only [Option.map_some']
    rw [scanServers_renderBody addrs ha]
    simp
  · unfold extractTargets
    rw [scanPP_renderDirectiveOnly name hn0 hn1]
    show resolveValue _ _ ++ resolveAll _ [] = []
    unfold resolveAll resolveValue
    rw [htrim, hstrip]
    unfold resolveTarget
    rw [if_neg (by simp [hnofmt])]
    unfold findUpstreamServers
    rw [findUpstreamBlock_of_no_up hup]
    rfl

/-- Witness for C4 at the name `b_pool` (which fails the hostname pattern
because of the underscore) and two member addresses. -/
theorem extractTargets_upstream_witness :
    extractTargets (renderConfig "b_pool".toList
        ["10.0.0.1:80".toList, "10.0.0.2:80".toList])
      = ["10.0.0.1:80".toList, "10.0.0.2:80".toList] ∧
    extractTargets (renderDirectiveOnly "b_pool".toList) = [] :=
  extractTargets_upstream "b_pool".toList
    ["10.0.0.1:80".toList, "10.0.0.2:80".toList]
    (by decide) (by decide) (by decide) (by decide) (by decide) (by decide)
    (by decide)

/-- C4 counterexample: the name `b` matches the hostname pattern, so even
though the text declares `upstream b` with exactly two member addresses
(as `findUpstreamServers` itself confirms), the extractor returns the
single verbatim target `b` for the directive instead of the two members. -/
theorem extractTargets_hostname_shadows_upstream_counterexample :
    findUpstreamServers
        "upstream b \x7b server 10.0.0.1:80; server 10.0.0.2:80; \x7d\nproxy_pass http://b;\n".toList
        "b".toList
      = some ["10.0.0.1:80".toList, "10.0.0.2:80".toList] ∧
    extractTargets
        "upstream b \x7b server 10.0.0.1:80; server 10.0.0.2:80; \x7d\nproxy_pass http://b;\n".toList
      = ["b".toList] := by
  constructor
  · rfl
  · rfl

end NginxProm
